import Mathlib

/-!
Shallow embedding of the configuration codec and lifecycle manager from
`src/mercury_net_diag/settingManager.h` / `settingManager.cpp`.

Strings are modelled as `List Char`; the Arduino `String` operations used by
the source (`indexOf`, `charAt`, `substring`, `replace`, `toInt`, `+`) are
modelled by the executable functions below.  `unsigned long` is modelled as
`Nat`; `long` as `Int` (values are assumed within the machine range, where
the source's behaviour is defined).
-/

/-- Model of Arduino `String::replace(find, repl)` for a two-character
`find` pattern and a one-character replacement: leftmost, non-overlapping,
continuing after each replacement.  All five `replace` calls in
`SettingManager::fromJson` have this shape. -/
def replacePair (a b r : Char) : List Char → List Char
  | [] => []
  | [c] => [c]
  | c :: d :: rest =>
      if c = a ∧ d = b then r :: replacePair a b r rest
      else c :: replacePair a b r (d :: rest)

/-- Model of `String::indexOf(pat)` (and `indexOf(pat, from)` after a
`drop`): index of the first occurrence of `pat`, if any. -/
def findSub (pat : List Char) : List Char → Option Nat
  | [] => if pat.isPrefixOf ([] : List Char) then some 0 else none
  | c :: cs =>
      if pat.isPrefixOf (c :: cs) then some 0
      else (findSub pat cs).map (fun n => n + 1)

/-- The quote-scanning loop of `fromJson`:
`while (end < len) { if (charAt(end) == '"' && charAt(end-1) != '\\') break; end++ }`.
`prev` is the character before the current position (initially the opening
quote, which is the last character of every search key).  Returns the
scanned span (the `substring(start, end)` of the source). -/
def scanValue (prev : Char) : List Char → List Char
  | [] => []
  | c :: rest => if c = '"' ∧ prev ≠ '\\' then [] else c :: scanValue c rest

/-- `SettingManager::escapeJson`. -/
def escapeJson : List Char → List Char
  | [] => []
  | c :: rest =>
      (if c = '\\' then ['\\', '\\']
       else if c = '"' then ['\\', '"']
       else if c = '\n' then ['\\', 'n']
       else if c = '\r' then ['\\', 'r']
       else if c = '\t' then ['\\', 't']
       else [c]) ++ escapeJson rest

/-- Digit-producing loop of the decimal numeral, on explicit fuel (the fuel
only bounds the recursion depth; `natToChars` always supplies enough). -/
def natToCharsF : Nat → Nat → List Char
  | 0, _ => []
  | fuel + 1, n =>
      if n < 10 then [Nat.digitChar n]
      else natToCharsF fuel (n / 10) ++ [Nat.digitChar (n % 10)]

/-- Decimal numeral of a `Nat`; model of Arduino `String(unsigned long)`. -/
def natToChars (n : Nat) : List Char := natToCharsF (n + 1) n

/-- Numeric value of a digit character. -/
def digitVal (c : Char) : Nat := c.toNat - '0'.toNat

/-- Value of a string of decimal digits. -/
def natVal (s : List Char) : Nat := s.foldl (fun a c => a * 10 + digitVal c) 0

/-- Model of Arduino `String::toInt` (C `atol`) on strings without leading
whitespace, as produced by `extractNumber`'s digit scan: an optional sign
followed by the longest digit run, `0` if there are no digits.  Values are
modelled exactly (the source's behaviour is undefined outside `long` range). -/
def toIntM (s : List Char) : Int :=
  match s with
  | [] => 0
  | c :: rest =>
      if c = '-' then -(natVal (rest.takeWhile Char.isDigit) : Int)
      else if c = '+' then (natVal (rest.takeWhile Char.isDigit) : Int)
      else (natVal ((c :: rest).takeWhile Char.isDigit) : Int)

/-- The five `value.replace` calls of `extractString`, in source order. -/
def unesc5 (raw : List Char) : List Char :=
  replacePair '\\' 't' '\t'
    (replacePair '\\' 'r' '\r'
      (replacePair '\\' 'n' '\n'
        (replacePair '\\' '\\' '\\'
          (replacePair '\\' '"' '"' raw))))

/-- The two `ep.replace` calls of the endpoints loop, in source order. -/
def unesc2 (raw : List Char) : List Char :=
  replacePair '\\' '\\' '\\' (replacePair '\\' '"' '"' raw)

/-- The `extractString` lambda of `SettingManager::fromJson`. -/
def extractString (json key : List Char) : List Char :=
  let searchKey := '"' :: key ++ '"' :: ':' :: ['"']
  match findSub searchKey json with
  | none => []
  | some i => unesc5 (scanValue '"' (json.drop (i + searchKey.length)))

/-- The `extractNumber` lambda of `SettingManager::fromJson`. -/
def extractNumber (json key : List Char) : Int :=
  let searchKey := '"' :: key ++ '"' :: [':']
  match findSub searchKey json with
  | none => -1
  | some i =>
      toIntM ((json.drop (i + searchKey.length)).takeWhile
        (fun c => c.isDigit || c == '-'))

/-- `MAX_ENDPOINTS` from `settingManager.h`. -/
def MAX_ENDPOINTS : Nat := 5

/-- `struct DeviceSettings` from `settingManager.h`. -/
structure DeviceSettings where
  locationName : List Char
  networkName : List Char
  mainSSID : List Char
  mainPass : List Char
  altSSID : List Char
  altPass : List Char
  devSSID : List Char
  devPass : List Char
  checkInterval : Nat
  endpoints : List (List Char)
deriving DecidableEq, Repr

/-- Post-state of `SettingManager::setDefaults` (it overwrites every field,
so the result does not depend on the previous record). -/
def setDefaults : DeviceSettings :=
  { locationName := "unset".toList
    networkName := []
    mainSSID := "cluster1".toList
    mainPass := "ISMS12345@".toList
    altSSID := "tomikawa-wifi".toList
    altPass := "tomikawa153855".toList
    devSSID := "fgop".toList
    devPass := "tetrad12345@@@".toList
    checkInterval := 600000
    endpoints := [] }

/-- The comma-separated tail of the endpoints array emitted by `toJson`. -/
def epJsonRest : List (List Char) → List Char
  | [] => []
  | e :: rest => ',' :: '"' :: (escapeJson e ++ '"' :: epJsonRest rest)

/-- The endpoints array body emitted by `toJson` (`"e1","e2",...`). -/
def epJson : List (List Char) → List Char
  | [] => []
  | e :: rest => '"' :: (escapeJson e ++ '"' :: epJsonRest rest)

/-- `SettingManager::toJson`. -/
def toJson (s : DeviceSettings) : List Char :=
  "\x7b\"locationName\":\"".toList ++ escapeJson s.locationName
    ++ "\",\"networkName\":\"".toList ++ escapeJson s.networkName
    ++ "\",\"mainSSID\":\"".toList ++ escapeJson s.mainSSID
    ++ "\",\"mainPass\":\"".toList ++ escapeJson s.mainPass
    ++ "\",\"altSSID\":\"".toList ++ escapeJson s.altSSID
    ++ "\",\"altPass\":\"".toList ++ escapeJson s.altPass
    ++ "\",\"devSSID\":\"".toList ++ escapeJson s.devSSID
    ++ "\",\"devPass\":\"".toList ++ escapeJson s.devPass
    ++ "\",\"checkInterval\":".toList ++ natToChars s.checkInterval
    ++ ",\"endpoints\":[".toList ++ epJson s.endpoints
    ++ "]\x7d".toList

/-- The endpoints-array parsing loop of `fromJson` (`while (pos < len) ...`),
expressed on the remaining suffix of the array region, with explicit fuel
bounding the recursion depth (every step strictly shortens the suffix, so
`epLoop`'s initial fuel always suffices).  `acc` is the list built so far
(`settings.endpoints`); skipping to the next `'"'` models
`epArray.indexOf('"', pos)`, and `drop (raw.length + 1)` models
`pos = qEnd + 1`. -/
def epLoopF : Nat → List (List Char) → List Char → List (List Char)
  | 0, acc, _ => acc
  | _ + 1, acc, [] => acc
  | fuel + 1, acc, c :: s =>
      if c = '"' then
        let raw := scanValue '"' s
        let acc2 :=
          if raw.length > 0 then
            let ep := unesc2 raw
            if ep.length > 0 ∧ acc.length < MAX_ENDPOINTS then acc ++ [ep] else acc
          else acc
        epLoopF fuel acc2 (s.drop (raw.length + 1))
      else epLoopF fuel acc s

/-- The endpoints-array parsing loop, at its actual entry point. -/
def epLoop (acc : List (List Char)) (s : List Char) : List (List Char) :=
  epLoopF s.length acc s

/-- `SettingManager::fromJson`.  Returns the `bool` result of the source
function together with the record it stores into `settings` (every field is
overwritten, so the previous record is irrelevant). -/
def fromJson (json : List Char) : Bool × DeviceSettings :=
  let loc := extractString json "locationName".toList
  let eps : List (List Char) :=
    match findSub "\"endpoints\":[".toList json with
    | none => []
    | some i =>
        let epStart := i + 13
        match findSub [']'] (json.drop epStart) with
        | none => []
        | some k => if k > 0 then epLoop [] ((json.drop epStart).take k) else []
  (true,
   { locationName := if loc = [] then "unset".toList else loc
     networkName := extractString json "networkName".toList
     mainSSID := extractString json "mainSSID".toList
     mainPass := extractString json "mainPass".toList
     altSSID := extractString json "altSSID".toList
     altPass := extractString json "altPass".toList
     devSSID := extractString json "devSSID".toList
     devPass := extractString json "devPass".toList
     checkInterval :=
       let interval := extractNumber json "checkInterval".toList
       if interval > 0 then interval.toNat else 600000
     endpoints := eps })

/-- `SettingManager::addEndpoint`. -/
def addEndpoint (s : DeviceSettings) (url : List Char) : DeviceSettings × Bool :=
  if s.endpoints.length ≥ MAX_ENDPOINTS then (s, false)
  else ({ s with endpoints := s.endpoints ++ [url] }, true)

/-- The byte-store collaborator (SPIFFS), abstracted: mount result, read and
write availability, and the config-file content (`none` = no file). -/
structure Backend where
  mountOk : Bool
  canRead : Bool
  canWrite : Bool
  file : Option (List Char)
deriving DecidableEq

/-- The `SettingManager`'s own state: the record and the initialized flag. -/
structure StoreState where
  settings : DeviceSettings
  initialized : Bool
deriving DecidableEq

/-- `SettingManager::isFirstBoot` (`!SPIFFS.exists(CONFIG_FILE)`). -/
def isFirstBoot (fs : Backend) : Bool := fs.file.isNone

/-- `SettingManager::saveSettings`: open for writing (fails iff the backend
cannot write), write `toJson`. -/
def saveSettings (fs : Backend) (st : StoreState) : Backend × Bool :=
  if fs.canWrite then ({ fs with file := some (toJson st.settings) }, true)
  else (fs, false)

/-- `SettingManager::loadSettings`: open for reading (fails iff the file is
missing or the backend cannot read), read all, `fromJson`. -/
def loadSettings (fs : Backend) (st : StoreState) : StoreState × Bool :=
  match fs.file with
  | none => (st, false)
  | some txt =>
      if fs.canRead then ({ st with settings := (fromJson txt).2 }, (fromJson txt).1)
      else (st, false)

/-- `SettingManager::begin`. -/
def begin (fs : Backend) (st : StoreState) : Backend × StoreState × Bool :=
  if ¬ fs.mountOk then (fs, st, false)
  else
    let boot : Backend × StoreState × Bool :=
      if isFirstBoot fs then
        let st1 := { st with settings := setDefaults }
        let sv := saveSettings fs st1
        (sv.1, st1, sv.2)
      else (fs, st, true)
    if boot.2.2 then
      let ld := loadSettings boot.1 boot.2.1
      let st2 := if ld.2 then ld.1 else { ld.1 with settings := setDefaults }
      (boot.1, { st2 with initialized := true }, true)
    else (boot.1, boot.2.1, false)

/-! ### Auxiliary definitions used by the verification -/

/-- `escapeJson` with the quote escape already undone (the state of a raw
value after the first `replace` of `extractString`). -/
def esc1 : List Char → List Char
  | [] => []
  | c :: rest =>
      (if c = '\\' then ['\\', '\\']
       else if c = '\n' then ['\\', 'n']
       else if c = '\r' then ['\\', 'r']
       else if c = '\t' then ['\\', 't']
       else [c]) ++ esc1 rest

/-- State after the second `replace` (backslashes also undone). -/
def esc2 : List Char → List Char
  | [] => []
  | c :: rest =>
      (if c = '\n' then ['\\', 'n']
       else if c = '\r' then ['\\', 'r']
       else if c = '\t' then ['\\', 't']
       else [c]) ++ esc2 rest

/-- State after the third `replace` (newlines also undone). -/
def esc3 : List Char → List Char
  | [] => []
  | c :: rest =>
      (if c = '\r' then ['\\', 'r']
       else if c = '\t' then ['\\', 't']
       else [c]) ++ esc3 rest

/-- State after the fourth `replace` (carriage returns also undone). -/
def esc4 : List Char → List Char
  | [] => []
  | c :: rest => (if c = '\t' then ['\\', 't'] else [c]) ++ esc4 rest

/-- No backslash immediately followed by a literal letter `n`, `r` or `t`
(such two-character runs collide with the escape forms on decode). -/
def noEscSeq : List Char → Bool
  | a :: b :: rest => !(a == '\\' && (b == 'n' || b == 'r' || b == 't')) && noEscSeq (b :: rest)
  | _ => true

/-- Every double quote in the list is immediately preceded by a backslash. -/
def noLQ : List Char → Prop
  | [] => True
  | a :: rest => (rest.head? = some '"' → a = '\\') ∧ noLQ rest

/-- No quote at the head and every quote preceded by a backslash: no
unescaped quote anywhere. -/
def quoteSafe (l : List Char) : Prop := l.head? ≠ some '"' ∧ noLQ l

/-- The character before the position where the value scan will meet the
closing structural quote: the last character of `v`'s escape, or `prev` if
`v` is empty.  `lastNotBS` states it is not a backslash. -/
def lastNotBS (prev : Char) (v : List Char) : Prop :=
  v.getLast?.getD prev ≠ '\\'

/-- The search key `"\"" + key + "\":\""` of `extractString`. -/
def patStr (key : List Char) : List Char := '"' :: key ++ '"' :: ':' :: ['"']

/-- The search key `"\"" + key + "\":"` of `extractNumber`. -/
def patNum (key : List Char) : List Char := '"' :: key ++ '"' :: [':']

/-- All suffixes of a list, longest first. -/
def tails : List Char → List (List Char)
  | [] => [[]]
  | c :: rest => (c :: rest) :: tails rest

/-- Neither list is a prefix of the other (so they disagree within the
shorter one, whatever follows). -/
def incompB (pat t : List Char) : Bool := !(pat.isPrefixOf t) && !(t.isPrefixOf pat)

/-- `pat` does not occur starting inside `X` in the text `X ++ Y`. -/
def noEarly (pat X Y : List Char) : Prop :=
  ∀ t, t ≠ [] → t <:+ X → ¬ (pat <+: (t ++ Y))

/-- One scalar-field segment of a `toJson` blob: search key, escaped value,
closing quote and separating comma. -/
def fieldChunk (k v : List Char) : List Char := patStr k ++ (escapeJson v ++ ['"', ','])

/-- Concatenation of scalar-field segments. -/
def chunksOf : List (List Char × List Char) → List Char
  | [] => []
  | p :: rest => fieldChunk p.1 p.2 ++ chunksOf rest

/-- Whether `pat` occurs as a literal substring. -/
def hasSub (pat s : List Char) : Bool := (findSub pat s).isSome

/-- The record produced by decoding text in which no search key occurs:
sentinel location name, defaults for the integer field, empty elsewhere. -/
def blankRecord : DeviceSettings :=
  { locationName := "unset".toList
    networkName := []
    mainSSID := []
    mainPass := []
    altSSID := []
    altPass := []
    devSSID := []
    devPass := []
    checkInterval := 600000
    endpoints := [] }

/-- The only change one decode/encode pass makes to a well-formed record:
an empty location name becomes the sentinel. -/
def normalizeRec (r : DeviceSettings) : DeviceSettings :=
  { r with locationName := if r.locationName = [] then "unset".toList else r.locationName }

/-- A text field the codec transports exactly: no backslash-letter run that
collides with an escape form, and no trailing backslash (the scan's
one-character lookback would treat the closing quote as escaped). -/
abbrev GoodField (v : List Char) : Prop := noEscSeq v = true ∧ v.getLast? ≠ some '\\'

/-- An endpoint element the codec transports exactly: non-empty (empty
elements are dropped), no trailing backslash, and none of the characters
the narrower endpoint unescape cannot restore (`\n`, `\r`, `\t`) nor the
region-terminating `]`. -/
abbrev GoodEp (e : List Char) : Prop :=
  e ≠ [] ∧ e.getLast? ≠ some '\\' ∧ ∀ c ∈ e, c ≠ '\n' ∧ c ≠ '\r' ∧ c ≠ '\t' ∧ c ≠ ']'

/-- Records on which one encode/decode pass is lossless (up to the
location-name sentinel).  The interval bounds keep the value positive and
within the source's `long` range. -/
abbrev Good (r : DeviceSettings) : Prop :=
  GoodField r.locationName ∧ GoodField r.networkName ∧ GoodField r.mainSSID ∧
    GoodField r.mainPass ∧ GoodField r.altSSID ∧ GoodField r.altPass ∧
    GoodField r.devSSID ∧ GoodField r.devPass ∧
    1 ≤ r.checkInterval ∧ r.checkInterval < 2147483648 ∧
    r.endpoints.length ≤ MAX_ENDPOINTS ∧ ∀ e ∈ r.endpoints, GoodEp e

/-- The elements the endpoints loop would collect with no 5-element bound,
on explicit fuel (as for `epLoopF`, the entry point's fuel always
suffices). -/
def epElemsF : Nat → List Char → List (List Char)
  | 0, _ => []
  | _ + 1, [] => []
  | fuel + 1, c :: s =>
      if c = '"' then
        let raw := scanValue '"' s
        (if raw.length > 0 then [unesc2 raw] else []) ++
          epElemsF fuel (s.drop (raw.length + 1))
      else epElemsF fuel s

/-- The elements the endpoints loop would collect with no 5-element bound:
each non-empty quoted span, unescaped with the two-stage endpoint
unescape. -/
def epElems (s : List Char) : List (List Char) := epElemsF s.length s

/-- The bracketed endpoints region `fromJson` scans: from just after
`"endpoints":[` up to the first `]`, empty if either marker is missing. -/
def epRegion (json : List Char) : List Char :=
  match findSub "\"endpoints\":[".toList json with
  | none => []
  | some i =>
      match findSub [']'] (json.drop (i + 13)) with
      | none => []
      | some k => if k > 0 then (json.drop (i + 13)).take k else []

/-- Modelled from the spec: the per-character escaping table of section 4.1
(backslash, double quote, newline, carriage return, tab escaped; every
other byte passes through unchanged). -/
def escMapSpec (c : Char) : List Char :=
  if c = '\\' then ['\\', '\\']
  else if c = '"' then ['\\', '"']
  else if c = '\n' then ['\\', 'n']
  else if c = '\r' then ['\\', 'r']
  else if c = '\t' then ['\\', 't']
  else [c]

/-- The suffix of `toJson r` from the endpoints marker on. -/
def tailEp (r : DeviceSettings) : List Char :=
  "\"endpoints\":[".toList ++ (epJson r.endpoints ++ ']' :: ['\x7d'])

/-- The suffix of `toJson r` from the `checkInterval` key on. -/
def tailNum (r : DeviceSettings) : List Char :=
  patNum "checkInterval".toList ++ (natToChars r.checkInterval ++ ',' :: tailEp r)

/-- Suffixes of `toJson r` from each scalar key on, in declaration order. -/
def tail8 (r : DeviceSettings) : List Char :=
  patStr "devPass".toList ++ (escapeJson r.devPass ++ '"' :: ',' :: tailNum r)

def tail7 (r : DeviceSettings) : List Char :=
  patStr "devSSID".toList ++ (escapeJson r.devSSID ++ '"' :: ',' :: tail8 r)

def tail6 (r : DeviceSettings) : List Char :=
  patStr "altPass".toList ++ (escapeJson r.altPass ++ '"' :: ',' :: tail7 r)

def tail5 (r : DeviceSettings) : List Char :=
  patStr "altSSID".toList ++ (escapeJson r.altSSID ++ '"' :: ',' :: tail6 r)

def tail4 (r : DeviceSettings) : List Char :=
  patStr "mainPass".toList ++ (escapeJson r.mainPass ++ '"' :: ',' :: tail5 r)

def tail3 (r : DeviceSettings) : List Char :=
  patStr "mainSSID".toList ++ (escapeJson r.mainSSID ++ '"' :: ',' :: tail4 r)

def tail2 (r : DeviceSettings) : List Char :=
  patStr "networkName".toList ++ (escapeJson r.networkName ++ '"' :: ',' :: tail3 r)

/-- The scalar-field chunk lists preceding each key of `toJson r`. -/
def ps1 (_r : DeviceSettings) : List (List Char × List Char) := []

def ps2 (r : DeviceSettings) : List (List Char × List Char) :=
  [("locationName".toList, r.locationName)]

def ps3 (r : DeviceSettings) : List (List Char × List Char) :=
  ps2 r ++ [("networkName".toList, r.networkName)]

def ps4 (r : DeviceSettings) : List (List Char × List Char) :=
  ps3 r ++ [("mainSSID".toList, r.mainSSID)]

def ps5 (r : DeviceSettings) : List (List Char × List Char) :=
  ps4 r ++ [("mainPass".toList, r.mainPass)]

def ps6 (r : DeviceSettings) : List (List Char × List Char) :=
  ps5 r ++ [("altSSID".toList, r.altSSID)]

def ps7 (r : DeviceSettings) : List (List Char × List Char) :=
  ps6 r ++ [("altPass".toList, r.altPass)]

def ps8 (r : DeviceSettings) : List (List Char × List Char) :=
  ps7 r ++ [("devSSID".toList, r.devSSID)]

def ps9 (r : DeviceSettings) : List (List Char × List Char) :=
  ps8 r ++ [("devPass".toList, r.devPass)]

/-! ### Properties of the unescape passes -/

theorem replacePair_cons_no (a b r c : Char) (l : List Char)
    (h : ¬(c = a ∧ l.head? = some b)) :
    replacePair a b r (c :: l) = c :: replacePair a b r l := by
  cases l with
  | nil => rfl
  | cons d rest =>
      have hcd : ¬(c = a ∧ d = b) := by
        intro hcd
        exact h ⟨hcd.1, by simp [hcd.2]⟩
      simp [replacePair, hcd]

theorem replacePair_cons_match (a b r : Char) (l : List Char) :
    replacePair a b r (a :: b :: l) = r :: replacePair a b r l := by
  simp [replacePair]

theorem replacePair_ne_nil (a b r : Char) (l : List Char) (h : l ≠ []) :
    replacePair a b r l ≠ [] := by
  match l with
  | [c] => simp [replacePair]
  | c :: d :: rest =>
      simp only [replacePair]
      split <;> simp

theorem escapeJson_head (v : List Char) : (escapeJson v).head? ≠ some '"' := by
  cases v with
  | nil => simp [escapeJson]
  | cons c rest =>
      simp only [escapeJson]
      split_ifs with h1 h2 h3 h4 h5 <;> simp_all

theorem esc2_head_n (s : List Char) (h : (esc2 s).head? = some 'n') :
    s.head? = some 'n' := by
  cases s with
  | nil => simp [esc2] at h
  | cons c rest =>
      simp only [esc2] at h
      split_ifs at h <;> simp_all

theorem esc3_head_r (s : List Char) (h : (esc3 s).head? = some 'r') :
    s.head? = some 'r' := by
  cases s with
  | nil => simp [esc3] at h
  | cons c rest =>
      simp only [esc3] at h
      split_ifs at h <;> simp_all

theorem esc4_head_t (s : List Char) (h : (esc4 s).head? = some 't') :
    s.head? = some 't' := by
  cases s with
  | nil => simp [esc4] at h
  | cons c rest =>
      simp only [esc4] at h
      split_ifs at h <;> simp_all

theorem noEscSeq_tail (c : Char) (rest : List Char)
    (h : noEscSeq (c :: rest) = true) : noEscSeq rest = true := by
  cases rest with
  | nil => rfl
  | cons b r =>
      simp only [noEscSeq, Bool.and_eq_true] at h
      exact h.2

theorem noEscSeq_bs_head (rest : List Char)
    (h : noEscSeq ('\\' :: rest) = true) :
    rest.head? ≠ some 'n' ∧ rest.head? ≠ some 'r' ∧ rest.head? ≠ some 't' := by
  cases rest with
  | nil => simp
  | cons b r =>
      simp only [noEscSeq, Bool.and_eq_true, Bool.not_eq_true'] at h
      have hb := h.1
      simp only [List.head?_cons]
      constructor
      · intro hn; simp [Option.some_inj.mp hn] at hb
      constructor
      · intro hn; simp [Option.some_inj.mp hn] at hb
      · intro hn; simp [Option.some_inj.mp hn] at hb

theorem stageA (v : List Char) :
    replacePair '\\' '"' '"' (escapeJson v) = esc1 v := by
  induction v with
  | nil => rfl
  | cons c rest ih =>
      by_cases h1 : c = '\\'
      · subst h1
        have e : escapeJson ('\\' :: rest) = '\\' :: '\\' :: escapeJson rest := by
          simp [escapeJson]
        rw [e, replacePair_cons_no _ _ _ _ _ (by simp),
            replacePair_cons_no _ _ _ _ _ (fun hx => escapeJson_head rest hx.2), ih]
        simp [esc1]
      · by_cases h2 : c = '"'
        · subst h2
          have e : escapeJson ('"' :: rest) = '\\' :: '"' :: escapeJson rest := by
            simp [escapeJson]
          rw [e, replacePair_cons_match, ih]
          simp [esc1]
        · by_cases h3 : c = '\n'
          · subst h3
            have e : escapeJson ('\n' :: rest) = '\\' :: 'n' :: escapeJson rest := by
              simp [escapeJson]
            rw [e, replacePair_cons_no _ _ _ _ _ (by simp),
                replacePair_cons_no _ _ _ _ _ (by simp), ih]
            simp [esc1]
          · by_cases h4 : c = '\r'
            · subst h4
              have e : escapeJson ('\r' :: rest) = '\\' :: 'r' :: escapeJson rest := by
                simp [escapeJson]
              rw [e, replacePair_cons_no _ _ _ _ _ (by simp),
                  replacePair_cons_no _ _ _ _ _ (by simp), ih]
              simp [esc1]
            · by_cases h5 : c = '\t'
              · subst h5
                have e : escapeJson ('\t' :: rest) = '\\' :: 't' :: escapeJson rest := by
                  simp [escapeJson]
                rw [e, replacePair_cons_no _ _ _ _ _ (by simp),
                    replacePair_cons_no _ _ _ _ _ (by simp), ih]
                simp [esc1]
              · have e : escapeJson (c :: rest) = c :: escapeJson rest := by
                  simp [escapeJson, h1, h2, h3, h4, h5]
                rw [e, replacePair_cons_no _ _ _ _ _ (fun hx => h1 hx.1), ih]
                simp [esc1, h1, h3, h4, h5]

theorem stageB (v : List Char) :
    replacePair '\\' '\\' '\\' (esc1 v) = esc2 v := by
  induction v with
  | nil => rfl
  | cons c rest ih =>
      by_cases h1 : c = '\\'
      · subst h1
        have e : esc1 ('\\' :: rest) = '\\' :: '\\' :: esc1 rest := by simp [esc1]
        rw [e, replacePair_cons_match, ih]
        simp [esc2]
      · by_cases h3 : c = '\n'
        · subst h3
          have e : esc1 ('\n' :: rest) = '\\' :: 'n' :: esc1 rest := by simp [esc1]
          rw [e, replacePair_cons_no _ _ _ _ _ (by simp),
              replacePair_cons_no _ _ _ _ _ (by simp), ih]
          simp [esc2]
        · by_cases h4 : c = '\r'
          · subst h4
            have e : esc1 ('\r' :: rest) = '\\' :: 'r' :: esc1 rest := by simp [esc1]
            rw [e, replacePair_cons_no _ _ _ _ _ (by simp),
                replacePair_cons_no _ _ _ _ _ (by simp), ih]
            simp [esc2]
          · by_cases h5 : c = '\t'
            · subst h5
              have e : esc1 ('\t' :: rest) = '\\' :: 't' :: esc1 rest := by simp [esc1]
              rw [e, replacePair_cons_no _ _ _ _ _ (by simp),
                  replacePair_cons_no _ _ _ _ _ (by simp), ih]
              simp [esc2]
            · have e : esc1 (c :: rest) = c :: esc1 rest := by
                simp [esc1, h1, h3, h4, h5]
              rw [e, replacePair_cons_no _ _ _ _ _ (fun hx => h1 hx.1), ih]
              simp [esc2, h3, h4, h5]

theorem stageC (v : List Char) (hv : noEscSeq v = true) :
    replacePair '\\' 'n' '\n' (esc2 v) = esc3 v := by
  induction v with
  | nil => rfl
  | cons c rest ih =>
      have ih' := ih (noEscSeq_tail c rest hv)
      by_cases h3 : c = '\n'
      · subst h3
        have e : esc2 ('\n' :: rest) = '\\' :: 'n' :: esc2 rest := by simp [esc2]
        rw [e, replacePair_cons_match, ih']
        simp [esc3]
      · by_cases h4 : c = '\r'
        · subst h4
          have e : esc2 ('\r' :: rest) = '\\' :: 'r' :: esc2 rest := by simp [esc2]
          rw [e, replacePair_cons_no _ _ _ _ _ (by simp),
              replacePair_cons_no _ _ _ _ _ (by simp), ih']
          simp [esc3]
        · by_cases h5 : c = '\t'
          · subst h5
            have e : esc2 ('\t' :: rest) = '\\' :: 't' :: esc2 rest := by simp [esc2]
            rw [e, replacePair_cons_no _ _ _ _ _ (by simp),
                replacePair_cons_no _ _ _ _ _ (by simp), ih']
            simp [esc3]
          · have e : esc2 (c :: rest) = c :: esc2 rest := by
              simp [esc2, h3, h4, h5]
            have hguard : ¬(c = '\\' ∧ (esc2 rest).head? = some 'n') := by
              intro hx
              obtain ⟨hc, hh⟩ := hx
              subst hc
              exact (noEscSeq_bs_head rest hv).1 (esc2_head_n rest hh)
            rw [e, replacePair_cons_no _ _ _ _ _ hguard, ih']
            simp [esc3, h4, h5]

theorem stageD (v : List Char) (hv : noEscSeq v = true) :
    replacePair '\\' 'r' '\r' (esc3 v) = esc4 v := by
  induction v with
  | nil => rfl
  | cons c rest ih =>
      have ih' := ih (noEscSeq_tail c rest hv)
      by_cases h4 : c = '\r'
      · subst h4
        have e : esc3 ('\r' :: rest) = '\\' :: 'r' :: esc3 rest := by simp [esc3]
        rw [e, replacePair_cons_match, ih']
        simp [esc4]
      · by_cases h5 : c = '\t'
        · subst h5
          have e : esc3 ('\t' :: rest) = '\\' :: 't' :: esc3 rest := by simp [esc3]
          rw [e, replacePair_cons_no _ _ _ _ _ (by simp),
              replacePair_cons_no _ _ _ _ _ (by simp), ih']
          simp [esc4]
        · have e : esc3 (c :: rest) = c :: esc3 rest := by
            simp [esc3, h4, h5]
          have hguard : ¬(c = '\\' ∧ (esc3 rest).head? = some 'r') := by
            intro hx
            obtain ⟨hc, hh⟩ := hx
            subst hc
            exact (noEscSeq_bs_head rest hv).2.1 (esc3_head_r rest hh)
          rw [e, replacePair_cons_no _ _ _ _ _ hguard, ih']
          simp [esc4, h5]

theorem stageE (v : List Char) (hv : noEscSeq v = true) :
    replacePair '\\' 't' '\t' (esc4 v) = v := by
  induction v with
  | nil => rfl
  | cons c rest ih =>
      have ih' := ih (noEscSeq_tail c rest hv)
      by_cases h5 : c = '\t'
      · subst h5
        have e : esc4 ('\t' :: rest) = '\\' :: 't' :: esc4 rest := by simp [esc4]
        rw [e, replacePair_cons_match, ih']
      · have e : esc4 (c :: rest) = c :: esc4 rest := by simp [esc4, h5]
        have hguard : ¬(c = '\\' ∧ (esc4 rest).head? = some 't') := by
          intro hx
          obtain ⟨hc, hh⟩ := hx
          subst hc
          exact (noEscSeq_bs_head rest hv).2.2 (esc4_head_t rest hh)
        rw [e, replacePair_cons_no _ _ _ _ _ hguard, ih']

theorem unesc5_esc (v : List Char) (hv : noEscSeq v = true) :
    unesc5 (escapeJson v) = v := by
  rw [unesc5, stageA, stageB, stageC v hv, stageD v hv, stageE v hv]

theorem unesc2_esc (v : List Char) : unesc2 (escapeJson v) = esc2 v := by
  rw [unesc2, stageA, stageB]

theorem esc2_id (v : List Char)
    (hv : ∀ c ∈ v, c ≠ '\n' ∧ c ≠ '\r' ∧ c ≠ '\t') : esc2 v = v := by
  induction v with
  | nil => rfl
  | cons c rest ih =>
      have hc := hv c (by simp)
      have e : esc2 (c :: rest) = c :: esc2 rest := by
        simp [esc2, hc.1, hc.2.1, hc.2.2]
      rw [e, ih (fun d hd => hv d (by simp [hd]))]

/-! ### The value scan over escaped text -/

theorem scanValue_cons_go (prev c : Char) (l : List Char)
    (h : ¬(c = '"' ∧ prev ≠ '\\')) :
    scanValue prev (c :: l) = c :: scanValue c l := by
  simp [scanValue, h]

theorem scanValue_cons_stop (prev : Char) (l : List Char) (h : prev ≠ '\\') :
    scanValue prev ('"' :: l) = [] := by
  simp [scanValue, h]

theorem lastNotBS_shift (prev x c d : Char) (r : List Char)
    (h : lastNotBS prev (c :: d :: r)) : lastNotBS x (d :: r) := by
  have hne : d :: r ≠ ([] : List Char) := by simp
  unfold lastNotBS at h ⊢
  rw [List.getLast?_cons_cons, List.getLast?_eq_getLast _ hne] at h
  rw [List.getLast?_eq_getLast _ hne]
  simpa using h

theorem lastNotBS_tail (prev x c : Char) (rest' : List Char)
    (h : lastNotBS prev (c :: rest')) (hx : x ≠ '\\') : lastNotBS x rest' := by
  cases rest' with
  | nil => simpa [lastNotBS] using hx
  | cons d r => exact lastNotBS_shift prev x c d r h

theorem lastNotBS_bs_step (prev : Char) (rest' : List Char)
    (h : lastNotBS prev ('\\' :: rest')) : lastNotBS '\\' rest' := by
  cases rest' with
  | nil => simp [lastNotBS] at h
  | cons d r => exact lastNotBS_shift prev '\\' '\\' d r h

/-- The scan of `extractString` walks through a whole escaped value (escaped
quotes are skipped because their predecessor is a backslash) and stops at
the structural closing quote, provided the value does not end in a
backslash. -/
theorem scan_esc (v : List Char) (prev : Char) (rest : List Char)
    (h : lastNotBS prev v) :
    scanValue prev (escapeJson v ++ '"' :: rest) = escapeJson v := by
  induction v generalizing prev with
  | nil =>
      have hp : prev ≠ '\\' := by simpa [lastNotBS] using h
      simp [escapeJson, scanValue_cons_stop prev rest hp]
  | cons c rest' ih =>
      by_cases h1 : c = '\\'
      · subst h1
        have e : escapeJson ('\\' :: rest') = '\\' :: '\\' :: escapeJson rest' := by
          simp [escapeJson]
        rw [e, List.cons_append, List.cons_append,
            scanValue_cons_go _ _ _ (by simp), scanValue_cons_go _ _ _ (by simp),
            ih '\\' (lastNotBS_bs_step prev rest' h)]
      · by_cases h2 : c = '"'
        · subst h2
          have e : escapeJson ('"' :: rest') = '\\' :: '"' :: escapeJson rest' := by
            simp [escapeJson]
          rw [e, List.cons_append, List.cons_append,
              scanValue_cons_go _ _ _ (by simp),
              scanValue_cons_go _ _ _ (by simp),
              ih '"' (lastNotBS_tail prev '"' '"' rest' h (by decide))]
        · by_cases h3 : c = '\n'
          · subst h3
            have e : escapeJson ('\n' :: rest') = '\\' :: 'n' :: escapeJson rest' := by
              simp [escapeJson]
            rw [e, List.cons_append, List.cons_append,
                scanValue_cons_go _ _ _ (by simp), scanValue_cons_go _ _ _ (by simp),
                ih 'n' (lastNotBS_tail prev 'n' '\n' rest' h (by decide))]
          · by_cases h4 : c = '\r'
            · subst h4
              have e : escapeJson ('\r' :: rest') = '\\' :: 'r' :: escapeJson rest' := by
                simp [escapeJson]
              rw [e, List.cons_append, List.cons_append,
                  scanValue_cons_go _ _ _ (by simp), scanValue_cons_go _ _ _ (by simp),
                  ih 'r' (lastNotBS_tail prev 'r' '\r' rest' h (by decide))]
            · by_cases h5 : c = '\t'
              · subst h5
                have e : escapeJson ('\t' :: rest') = '\\' :: 't' :: escapeJson rest' := by
                  simp [escapeJson]
                rw [e, List.cons_append, List.cons_append,
                    scanValue_cons_go _ _ _ (by simp), scanValue_cons_go _ _ _ (by simp),
                    ih 't' (lastNotBS_tail prev 't' '\t' rest' h (by decide))]
              · have e : escapeJson (c :: rest') = c :: escapeJson rest' := by
                  simp [escapeJson, h1, h2, h3, h4, h5]
                rw [e, List.cons_append,
                    scanValue_cons_go _ _ _ (fun hx => h2 hx.1),
                    ih c (lastNotBS_tail prev c c rest' h h1)]

/-! ### First-occurrence machinery for `findSub` -/

theorem findSub_prefix (pat s : List Char) (h : pat <+: s) :
    findSub pat s = some 0 := by
  cases s with
  | nil =>
      have hb : pat.isPrefixOf ([] : List Char) = true := by simpa using h
      simp [findSub, hb]
  | cons c cs =>
      have hb : pat.isPrefixOf (c :: cs) = true := by simpa using h
      simp [findSub, hb]

theorem findSub_append (pat X Y : List Char) (h : noEarly pat X Y) :
    findSub pat (X ++ Y) = (findSub pat Y).map (fun n => n + X.length) := by
  induction X with
  | nil =>
      cases hF : findSub pat Y <;> simp [hF]
  | cons c X' ih =>
      have hnp : pat.isPrefixOf (c :: (X' ++ Y)) = false := by
        rw [Bool.eq_false_iff]
        intro hb
        exact h (c :: X') (by simp) (List.suffix_refl _)
          (by simpa using List.isPrefixOf_iff_prefix.mp hb)
      have h' : noEarly pat X' Y := fun t ht hs =>
        h t ht (hs.trans (List.suffix_cons c X'))
      rw [List.cons_append]
      simp only [findSub, hnp, Bool.false_eq_true, if_false]
      rw [ih h']
      cases findSub pat Y <;> simp <;> omega

theorem suffix_append_cases (t X1 X2 : List Char) (h : t <:+ X1 ++ X2) :
    t <:+ X2 ∨ ∃ t1, t1 ≠ [] ∧ t1 <:+ X1 ∧ t = t1 ++ X2 := by
  induction X1 with
  | nil => left; simpa using h
  | cons c X1' ih =>
      rw [List.cons_append, List.suffix_cons_iff] at h
      rcases h with h | h
      · right
        exact ⟨c :: X1', by simp, List.suffix_refl _, by simpa using h⟩
      · rcases ih h with h2 | ⟨t1, h1, h2, h3⟩
        · exact Or.inl h2
        · exact Or.inr ⟨t1, h1, h2.trans (List.suffix_cons c X1'), h3⟩

theorem noEarly_append (pat X1 X2 Y : List Char)
    (h1 : noEarly pat X1 (X2 ++ Y)) (h2 : noEarly pat X2 Y) :
    noEarly pat (X1 ++ X2) Y := by
  intro t ht hs hp
  rcases suffix_append_cases t X1 X2 hs with hin | ⟨t1, ht1, hs1, heq⟩
  · exact h2 t ht hin hp
  · subst heq
    rw [List.append_assoc] at hp
    exact h1 t1 ht1 hs1 hp

theorem mem_tails (t l : List Char) : t ∈ tails l ↔ t <:+ l := by
  induction l with
  | nil => simp [tails]
  | cons c rest ih => simp [tails, List.suffix_cons_iff, ih]

theorem not_prefix_of_incomp (pat t Y : List Char) (h : incompB pat t = true) :
    ¬ pat <+: (t ++ Y) := by
  intro hp
  simp only [incompB, Bool.and_eq_true, Bool.not_eq_true'] at h
  by_cases hl : pat.length ≤ t.length
  · have hpe : pat = t.take pat.length := by
      have h1 := List.prefix_iff_eq_take.mp hp
      rwa [List.take_append_of_le_length hl] at h1
    have hpt : pat <+: t := by rw [hpe]; exact List.take_prefix _ _
    have := List.isPrefixOf_iff_prefix.mpr hpt
    rw [h.1] at this
    simp at this
  · have hl' : t.length ≤ pat.length := by omega
    obtain ⟨u, hu⟩ := hp
    have h2 : (pat ++ u).take t.length = (t ++ Y).take t.length := by rw [hu]
    rw [List.take_append_of_le_length hl', List.take_left] at h2
    have htp : t <+: pat := by rw [← h2]; exact List.take_prefix _ _
    have := List.isPrefixOf_iff_prefix.mpr htp
    rw [h.2] at this
    simp at this

theorem noLQ_tail (c : Char) (l : List Char) (h : noLQ (c :: l)) : noLQ l := by
  simp only [noLQ] at h
  exact h.2

theorem noLQ_append_right (p t : List Char) (h : noLQ (p ++ t)) : noLQ t := by
  induction p with
  | nil => simpa using h
  | cons a p' ih => exact ih (noLQ_tail a (p' ++ t) (by rwa [List.cons_append] at h))

theorem noLQ_suffix (t l : List Char) (ht : t <:+ l) (h : noLQ l) : noLQ t := by
  obtain ⟨p, hp⟩ := ht
  exact noLQ_append_right p t (by rwa [hp])

theorem noLQ_cons (a : Char) (l : List Char)
    (h1 : l.head? = some '"' → a = '\\') (h2 : noLQ l) : noLQ (a :: l) := by
  simp only [noLQ]
  exact ⟨h1, h2⟩

theorem noLQ_escapeJson (v : List Char) : noLQ (escapeJson v) := by
  induction v with
  | nil => simp [escapeJson, noLQ]
  | cons c rest ih =>
      by_cases h1 : c = '\\'
      · subst h1
        have e : escapeJson ('\\' :: rest) = '\\' :: '\\' :: escapeJson rest := by
          simp [escapeJson]
        rw [e]
        exact noLQ_cons _ _ (fun _ => rfl) (noLQ_cons _ _ (fun _ => rfl) ih)
      · by_cases h2 : c = '"'
        · subst h2
          have e : escapeJson ('"' :: rest) = '\\' :: '"' :: escapeJson rest := by
            simp [escapeJson]
          rw [e]
          exact noLQ_cons _ _ (fun _ => rfl)
            (noLQ_cons _ _ (fun hx => absurd hx (escapeJson_head rest)) ih)
        · by_cases h3 : c = '\n'
          · subst h3
            have e : escapeJson ('\n' :: rest) = '\\' :: 'n' :: escapeJson rest := by
              simp [escapeJson]
            rw [e]
            exact noLQ_cons _ _ (fun _ => rfl)
              (noLQ_cons _ _ (fun hx => absurd hx (escapeJson_head rest)) ih)
          · by_cases h4 : c = '\r'
            · subst h4
              have e : escapeJson ('\r' :: rest) = '\\' :: 'r' :: escapeJson rest := by
                simp [escapeJson]
              rw [e]
              exact noLQ_cons _ _ (fun _ => rfl)
                (noLQ_cons _ _ (fun hx => absurd hx (escapeJson_head rest)) ih)
            · by_cases h5 : c = '\t'
              · subst h5
                have e : escapeJson ('\t' :: rest) = '\\' :: 't' :: escapeJson rest := by
                  simp [escapeJson]
                rw [e]
                exact noLQ_cons _ _ (fun _ => rfl)
                  (noLQ_cons _ _ (fun hx => absurd hx (escapeJson_head rest)) ih)
              · have e : escapeJson (c :: rest) = c :: escapeJson rest := by
                  simp [escapeJson, h1, h2, h3, h4, h5]
                rw [e]
                exact noLQ_cons _ _ (fun hx => absurd hx (escapeJson_head rest)) ih

/-- The span-killing argument: a search-key tail `key ++ "\":…"` cannot be a
prefix of (a suffix of escaped text) followed by a structural quote and a
non-colon character: the key's quote would have to sit after an
alphabetic character, which escaped text forbids, or exactly on the
structural quote, where the colon then fails to match. -/
theorem spanKill (t' : List Char) : ∀ (key t0 rest : List Char) (c1 : Char),
    key ≠ [] → (∀ c ∈ key, c.isAlpha = true) → noLQ t' → c1 ≠ ':' →
    ¬ ((key ++ '"' :: ':' :: t0) <+: (t' ++ '"' :: c1 :: rest)) := by
  induction t' with
  | nil =>
      intro key t0 rest c1 hk ha _ hc1 hp
      match key, hk with
      | kh :: kt, _ =>
          rw [List.cons_append, List.nil_append, List.cons_prefix_cons] at hp
          have halpha := ha kh (by simp)
          rw [hp.1] at halpha
          exact absurd halpha (by decide)
  | cons c t'' ih =>
      intro key t0 rest c1 hk ha hlq hc1 hp
      simp only [noLQ] at hlq
      match key, hk with
      | kh :: kt, _ =>
          rw [List.cons_append, List.cons_append, List.cons_prefix_cons] at hp
          obtain ⟨hkh, hp2⟩ := hp
          cases kt with
          | nil =>
              rw [List.nil_append] at hp2
              cases t'' with
              | nil =>
                  rw [List.nil_append, List.cons_prefix_cons] at hp2
                  obtain ⟨_, hp3⟩ := hp2
                  rw [List.cons_prefix_cons] at hp3
                  exact hc1 hp3.1.symm
              | cons d t3 =>
                  rw [List.cons_append, List.cons_prefix_cons] at hp2
                  have hd : d = '"' := hp2.1.symm
                  have hc : c = '\\' := hlq.1 (by simp [hd])
                  have halpha := ha kh (by simp)
                  rw [hkh, hc] at halpha
                  exact absurd halpha (by decide)
          | cons k2 kt' =>
              exact ih (k2 :: kt') t0 rest c1 (by simp)
                (fun x hx => ha x (by simp [List.mem_cons] at hx ⊢; tauto))
                hlq.2 hc1 hp2

theorem noEarly_of_incomp (pat lit Y : List Char)
    (h : ∀ t ∈ tails lit, t ≠ [] → incompB pat t = true) :
    noEarly pat lit Y := by
  intro t ht hs hp
  exact not_prefix_of_incomp pat t Y (h t ((mem_tails t lit).mpr hs) ht) hp

theorem noEarly_esc (key t0 : List Char) (c1 : Char) (v Y : List Char)
    (hk : key ≠ []) (ha : ∀ c ∈ key, c.isAlpha = true) (hc1 : c1 ≠ ':') :
    noEarly ('"' :: key ++ '"' :: ':' :: t0) (escapeJson v) ('"' :: c1 :: Y) := by
  intro t ht hs hp
  cases t with
  | nil => exact ht rfl
  | cons c t' =>
      rw [List.cons_append] at hp
      exact spanKill t' key t0 Y c1 hk ha
        (noLQ_suffix t' (escapeJson v) ((List.suffix_cons c t').trans hs)
          (noLQ_escapeJson v)) hc1 (List.cons_prefix_cons.mp hp).2

theorem noEarly_litBeforeEsc (key t0 lit : List Char) (c1 : Char) (v Y : List Char)
    (hk : key ≠ []) (ha : ∀ c ∈ key, c.isAlpha = true) (hc1 : c1 ≠ ':')
    (hl : ∀ t ∈ tails lit, t ≠ [] →
      t = ['"'] ∨ incompB ('"' :: key ++ '"' :: ':' :: t0) t = true) :
    noEarly ('"' :: key ++ '"' :: ':' :: t0) lit (escapeJson v ++ '"' :: c1 :: Y) := by
  intro t ht hs hp
  rcases hl t ((mem_tails t lit).mpr hs) ht with hq | hi
  · subst hq
    rw [List.singleton_append] at hp
    exact spanKill (escapeJson v) key t0 Y c1 hk ha (noLQ_escapeJson v) hc1
      (List.cons_prefix_cons.mp hp).2
  · exact not_prefix_of_incomp _ _ _ hi hp

theorem noEarly_quoteComma (key t0 : List Char) (Y : List Char)
    (hk : key ≠ []) (ha : ∀ c ∈ key, c.isAlpha = true) :
    noEarly ('"' :: key ++ '"' :: ':' :: t0) ['"', ','] Y := by
  intro t ht hs hp
  have hmem := (mem_tails t ['"', ',']).mpr hs
  simp only [tails, List.mem_cons] at hmem
  rcases hmem with h | h | h | h
  · subst h
    have hp2 : key ++ '"' :: ':' :: t0 <+: ',' :: Y :=
      (List.cons_prefix_cons.mp hp).2
    match key, hk with
    | kh :: kt, _ =>
        have halpha := ha kh (by simp)
        rw [(List.cons_prefix_cons.mp hp2).1] at halpha
        exact absurd halpha (by decide)
  · subst h
    exact absurd (List.cons_prefix_cons.mp hp).1 (by decide)
  · exact ht h
  · simp at h

theorem noEarly_lbrace (key t0 : List Char) (Y : List Char) :
    noEarly ('"' :: key ++ '"' :: ':' :: t0) ['\x7b'] Y := by
  intro t ht hs hp
  have hmem := (mem_tails t ['\x7b']).mpr hs
  simp only [tails, List.mem_cons] at hmem
  rcases hmem with h | h | h
  · subst h
    exact absurd (List.cons_prefix_cons.mp hp).1 (by decide)
  · exact ht h
  · simp at h

theorem noEarly_fieldChunk (key t0 kj vj Y : List Char)
    (hk : key ≠ []) (ha : ∀ c ∈ key, c.isAlpha = true)
    (hl : ∀ t ∈ tails (patStr kj), t ≠ [] →
      t = ['"'] ∨ incompB ('"' :: key ++ '"' :: ':' :: t0) t = true) :
    noEarly ('"' :: key ++ '"' :: ':' :: t0) (fieldChunk kj vj) Y := by
  have e : fieldChunk kj vj = patStr kj ++ (escapeJson vj ++ ['"', ',']) := rfl
  rw [e]
  apply noEarly_append
  · have e2 : (escapeJson vj ++ ['"', ',']) ++ Y = escapeJson vj ++ '"' :: ',' :: Y := by
      simp
    rw [e2]
    exact noEarly_litBeforeEsc key t0 (patStr kj) ',' vj Y hk ha (by decide) hl
  · apply noEarly_append
    · have e3 : ['"', ','] ++ Y = '"' :: ',' :: Y := by simp
      rw [e3]
      exact noEarly_esc key t0 ',' vj Y hk ha (by decide)
    · exact noEarly_quoteComma key t0 Y hk ha

theorem noEarly_chunksOf (key t0 : List Char)
    (ps : List (List Char × List Char)) (Y : List Char)
    (hk : key ≠ []) (ha : ∀ c ∈ key, c.isAlpha = true)
    (hl : ∀ p ∈ ps, ∀ t ∈ tails (patStr p.1), t ≠ [] →
      t = ['"'] ∨ incompB ('"' :: key ++ '"' :: ':' :: t0) t = true) :
    noEarly ('"' :: key ++ '"' :: ':' :: t0) (chunksOf ps) Y := by
  induction ps with
  | nil =>
      intro t ht hs
      rw [chunksOf] at hs
      exact absurd (List.suffix_nil.mp hs) ht
  | cons p rest ih =>
      rw [chunksOf]
      apply noEarly_append
      · exact noEarly_fieldChunk key t0 p.1 p.2 _ hk ha (hl p (by simp))
      · exact ih (fun q hq => hl q (by simp [hq]))

/-! ### Decimal printing and parsing of the interval -/

theorem natToCharsF_irrel (n : Nat) : ∀ f1 f2, n < f1 → n < f2 →
    natToCharsF f1 n = natToCharsF f2 n := by
  induction n using Nat.strong_induction_on with
  | _ n ih =>
      intro f1 f2 h1 h2
      cases f1 with
      | zero => omega
      | succ fa =>
          cases f2 with
          | zero => omega
          | succ fb =>
              by_cases h10 : n < 10
              · simp [natToCharsF, h10]
              · have hd : n / 10 < n := Nat.div_lt_self (by omega) (by omega)
                simp only [natToCharsF, if_neg h10]
                rw [ih (n / 10) hd fa fb (by omega) (by omega)]

theorem natToChars_eq (n : Nat) :
    natToChars n = if n < 10 then [Nat.digitChar n]
      else natToChars (n / 10) ++ [Nat.digitChar (n % 10)] := by
  show natToCharsF (n + 1) n = _
  by_cases h10 : n < 10
  · simp [natToCharsF, h10]
  · have hd : n / 10 < n := Nat.div_lt_self (by omega) (by omega)
    simp only [natToCharsF, if_neg h10]
    rw [natToCharsF_irrel (n / 10) n (n / 10 + 1) (by omega) (by omega)]
    rfl

theorem natToChars_ne_nil (n : Nat) : natToChars n ≠ [] := by
  rw [natToChars_eq]
  split_ifs <;> simp

theorem digitChar_isDigit (n : Nat) (h : n < 10) :
    (Nat.digitChar n).isDigit = true := by
  interval_cases n <;> decide

theorem digitVal_digitChar (n : Nat) (h : n < 10) :
    digitVal (Nat.digitChar n) = n := by
  interval_cases n <;> decide

theorem natToChars_digits (n : Nat) : ∀ c ∈ natToChars n, c.isDigit = true := by
  induction n using Nat.strong_induction_on with
  | _ n ih =>
      rw [natToChars_eq]
      split_ifs with h
      · intro c hc
        simp only [List.mem_singleton] at hc
        subst hc
        exact digitChar_isDigit n h
      · intro c hc
        simp only [List.mem_append, List.mem_singleton] at hc
        rcases hc with hc | hc
        · exact ih (n / 10) (Nat.div_lt_self (by omega) (by omega)) c hc
        · subst hc
          exact digitChar_isDigit (n % 10) (Nat.mod_lt _ (by omega))

theorem natVal_append_digit (xs : List Char) (d : Char) :
    natVal (xs ++ [d]) = natVal xs * 10 + digitVal d := by
  simp [natVal, List.foldl_append]

theorem natVal_natToChars (n : Nat) : natVal (natToChars n) = n := by
  induction n using Nat.strong_induction_on with
  | _ n ih =>
      rw [natToChars_eq]
      split_ifs with h
      · simp [natVal, digitVal_digitChar n h]
      · rw [natVal_append_digit, ih (n / 10) (Nat.div_lt_self (by omega) (by omega)),
            digitVal_digitChar (n % 10) (Nat.mod_lt _ (by omega))]
        omega

theorem takeWhile_append_all (p : Char → Bool) (D Y : List Char)
    (hD : ∀ c ∈ D, p c = true) :
    (D ++ Y).takeWhile p = D ++ Y.takeWhile p := by
  induction D with
  | nil => simp
  | cons c D' ih =>
      have hc := hD c (by simp)
      simp only [List.cons_append, List.takeWhile_cons, hc, if_true]
      rw [ih (fun d hd => hD d (by simp [hd]))]

theorem takeWhile_digits (n : Nat) (Y : List Char)
    (hY : Y.takeWhile (fun c => c.isDigit || c == '-') = []) :
    (natToChars n ++ Y).takeWhile (fun c => c.isDigit || c == '-') = natToChars n := by
  rw [takeWhile_append_all _ _ _
    (fun c hc => by simp [natToChars_digits n c hc]), hY, List.append_nil]

theorem toIntM_natToChars (n : Nat) (Y : List Char)
    (hY : Y.takeWhile Char.isDigit = []) :
    toIntM (natToChars n ++ Y) = (n : Int) := by
  have hd := natToChars_digits n
  cases hnc : natToChars n with
  | nil => exact absurd hnc (natToChars_ne_nil n)
  | cons c cs =>
      have hAll : ∀ d ∈ (c :: cs), Char.isDigit d = true := by
        intro d hdm
        apply hd
        rw [hnc]
        exact hdm
      have hcd : c.isDigit = true := hAll c (by simp)
      have hc1 : c ≠ '-' := by
        intro hx
        rw [hx] at hcd
        simp at hcd
      have hc2 : c ≠ '+' := by
        intro hx
        rw [hx] at hcd
        simp at hcd
      have hTW : List.takeWhile Char.isDigit (c :: (cs ++ Y)) = c :: cs := by
        have h2 := takeWhile_append_all Char.isDigit (c :: cs) Y hAll
        rw [hY, List.append_nil] at h2
        simpa using h2
      rw [List.cons_append, toIntM, if_neg hc1, if_neg hc2, hTW, ← hnc,
          natVal_natToChars]

/-! ### Locating a key's value inside an encoded blob -/

theorem escapeJson_ne_nil (v : List Char) (h : v ≠ []) : escapeJson v ≠ [] := by
  cases v with
  | nil => exact absurd rfl h
  | cons c rest =>
      simp only [escapeJson]
      split_ifs <;> simp

theorem lastNotBS_of (prev : Char) (v : List Char)
    (h1 : v.getLast? ≠ some '\\') (h2 : prev ≠ '\\') : lastNotBS prev v := by
  unfold lastNotBS
  cases hg : v.getLast? with
  | none => simpa using h2
  | some c =>
      rw [hg] at h1
      simpa using fun hx => h1 (by rw [hx])

theorem noEarly_allDigits (pat0 : List Char) (D Y : List Char)
    (hD : ∀ c ∈ D, c.isDigit = true) :
    noEarly ('"' :: pat0) D Y := by
  intro t ht hs hp
  cases t with
  | nil => exact ht rfl
  | cons c t' =>
      have hc : c.isDigit = true := hD c (hs.subset (by simp))
      rw [← (List.cons_prefix_cons.mp hp).1] at hc
      exact absurd hc (by decide)

theorem extractString_eq_some (json key : List Char) (i : Nat)
    (h : findSub ('"' :: key ++ '"' :: ':' :: ['"']) json = some i) :
    extractString json key =
      unesc5 (scanValue '"'
        (json.drop (i + ('"' :: key ++ '"' :: ':' :: ['"']).length))) := by
  simp only [extractString]
  rw [h]

theorem extractString_eq_none (json key : List Char)
    (h : findSub ('"' :: key ++ '"' :: ':' :: ['"']) json = none) :
    extractString json key = [] := by
  simp only [extractString]
  rw [h]

theorem extractNumber_eq_some (json key : List Char) (i : Nat)
    (h : findSub ('"' :: key ++ '"' :: [':']) json = some i) :
    extractNumber json key =
      toIntM ((json.drop (i + ('"' :: key ++ '"' :: [':']).length)).takeWhile
        (fun c => c.isDigit || c == '-')) := by
  simp only [extractNumber]
  rw [h]

theorem extractNumber_eq_none (json key : List Char)
    (h : findSub ('"' :: key ++ '"' :: [':']) json = none) :
    extractNumber json key = -1 := by
  simp only [extractNumber]
  rw [h]

theorem noEarly_A (key t0 : List Char) (ps : List (List Char × List Char))
    (Y : List Char)
    (hk : key ≠ []) (ha : ∀ c ∈ key, c.isAlpha = true)
    (hl : ∀ p ∈ ps, ∀ t ∈ tails (patStr p.1), t ≠ [] →
      t = ['"'] ∨ incompB ('"' :: key ++ '"' :: ':' :: t0) t = true) :
    noEarly ('"' :: key ++ '"' :: ':' :: t0) (['\x7b'] ++ chunksOf ps) Y :=
  noEarly_append _ _ _ _ (noEarly_lbrace key t0 _)
    (noEarly_chunksOf key t0 ps Y hk ha hl)

/-- Full computation of `extractString` on a well-formed blob: the first
occurrence of the search key is the structural one, the scan returns the
escaped value, and the unescape restores it. -/
theorem extractString_blob (key v REST : List Char)
    (ps : List (List Char × List Char))
    (hk : key ≠ []) (ha : ∀ c ∈ key, c.isAlpha = true)
    (hl : ∀ p ∈ ps, ∀ t ∈ tails (patStr p.1), t ≠ [] →
      t = ['"'] ∨ incompB ('"' :: key ++ '"' :: ':' :: ['"']) t = true)
    (hv : noEscSeq v = true) (hlast : v.getLast? ≠ some '\\') :
    extractString ((['\x7b'] ++ chunksOf ps) ++
      (('"' :: key ++ '"' :: ':' :: ['"']) ++ (escapeJson v ++ '"' :: ',' :: REST)))
      key = v := by
  have hNE := noEarly_A key ['"'] ps
    (('"' :: key ++ '"' :: ':' :: ['"']) ++ (escapeJson v ++ '"' :: ',' :: REST))
    hk ha hl
  have hfind : findSub ('"' :: key ++ '"' :: ':' :: ['"'])
      ((['\x7b'] ++ chunksOf ps) ++
        (('"' :: key ++ '"' :: ':' :: ['"']) ++ (escapeJson v ++ '"' :: ',' :: REST)))
      = some (['\x7b'] ++ chunksOf ps).length := by
    rw [findSub_append _ _ _ hNE, findSub_prefix _ _ (List.prefix_append _ _)]
    simp
  rw [extractString_eq_some _ _ _ hfind, List.drop_append, List.drop_left,
      scan_esc v '"' (',' :: REST) (lastNotBS_of '"' v hlast (by decide)),
      unesc5_esc v hv]

theorem extractNumber_blob (key REST : List Char) (n : Nat)
    (ps : List (List Char × List Char))
    (hk : key ≠ []) (ha : ∀ c ∈ key, c.isAlpha = true)
    (hl : ∀ p ∈ ps, ∀ t ∈ tails (patStr p.1), t ≠ [] →
      t = ['"'] ∨ incompB ('"' :: key ++ '"' :: ':' :: []) t = true)
    (hR : REST.takeWhile (fun c => c.isDigit || c == '-') = []) :
    extractNumber ((['\x7b'] ++ chunksOf ps) ++
      (('"' :: key ++ '"' :: ':' :: []) ++ (natToChars n ++ REST))) key = (n : Int) := by
  have hNE := noEarly_A key [] ps
    (('"' :: key ++ '"' :: ':' :: []) ++ (natToChars n ++ REST)) hk ha hl
  have hfind : findSub ('"' :: key ++ '"' :: ':' :: [])
      ((['\x7b'] ++ chunksOf ps) ++
        (('"' :: key ++ '"' :: ':' :: []) ++ (natToChars n ++ REST)))
      = some (['\x7b'] ++ chunksOf ps).length := by
    rw [findSub_append _ _ _ hNE, findSub_prefix _ _ (List.prefix_append _ _)]
    simp
  rw [extractNumber_eq_some _ _ _ hfind, List.drop_append, List.drop_left]
  rw [takeWhile_append_all _ _ _
    (fun c hc => by simp [natToChars_digits n c hc]), hR, List.append_nil]
  have h2 := toIntM_natToChars n [] rfl
  rwa [List.append_nil] at h2

theorem noEarly_single_notMem (c : Char) (X Y : List Char) (h : c ∉ X) :
    noEarly [c] X Y := by
  intro t ht hs hp
  cases t with
  | nil => exact ht rfl
  | cons d t' =>
      have hd : d ∈ X := hs.subset (by simp)
      rw [← (List.cons_prefix_cons.mp hp).1] at hd
      exact h hd

theorem not_mem_escapeJson (c : Char) (v : List Char) (hc : c ∉ v)
    (h1 : c ≠ '\\') (h2 : c ≠ '"') (h3 : c ≠ 'n') (h4 : c ≠ 'r') (h5 : c ≠ 't') :
    c ∉ escapeJson v := by
  induction v with
  | nil => simp [escapeJson]
  | cons d rest ih =>
      have hcd : c ≠ d := fun hx => hc (by simp [hx])
      have hcr : c ∉ rest := fun hx => hc (by simp [hx])
      simp only [escapeJson, List.mem_append]
      rintro (hb | hb)
      · split_ifs at hb <;> simp at hb <;> tauto
      · exact ih hcr hb

theorem rb_not_mem_epJsonRest (es : List (List Char))
    (h : ∀ e ∈ es, (']' : Char) ∉ e) : (']' : Char) ∉ epJsonRest es := by
  induction es with
  | nil => simp [epJsonRest]
  | cons e rest ih =>
      simp only [epJsonRest, List.mem_cons, List.mem_append]
      push_neg
      refine ⟨by decide, by decide, ?_, ?_⟩
      · exact not_mem_escapeJson _ _ (h e (by simp))
          (by decide) (by decide) (by decide) (by decide) (by decide)
      · exact ⟨by decide, ih (fun x hxm => h x (by simp [hxm]))⟩

theorem rb_not_mem_epJson (es : List (List Char))
    (h : ∀ e ∈ es, (']' : Char) ∉ e) : (']' : Char) ∉ epJson es := by
  cases es with
  | nil => simp [epJson]
  | cons e rest =>
      simp only [epJson, List.mem_cons, List.mem_append]
      push_neg
      refine ⟨by decide, ?_, ?_⟩
      · exact not_mem_escapeJson _ _ (h e (by simp))
          (by decide) (by decide) (by decide) (by decide) (by decide)
      · exact ⟨by decide, rb_not_mem_epJsonRest rest (fun x hxm => h x (by simp [hxm]))⟩

/-! ### The endpoints loop on encoded arrays -/

theorem epLoopF_irrel (n : Nat) : ∀ s : List Char, s.length ≤ n →
    ∀ f1 f2 acc, s.length ≤ f1 → s.length ≤ f2 →
    epLoopF f1 acc s = epLoopF f2 acc s := by
  induction n with
  | zero =>
      intro s hs f1 f2 acc h1 h2
      have hnil : s = [] := List.length_eq_zero.mp (by omega)
      subst hnil
      cases f1 <;> cases f2 <;> rfl
  | succ n ih =>
      intro s hs f1 f2 acc h1 h2
      cases s with
      | nil => cases f1 <;> cases f2 <;> rfl
      | cons c s2 =>
          simp only [List.length_cons] at hs h1 h2
          cases f1 with
          | zero => omega
          | succ fa =>
              cases f2 with
              | zero => omega
              | succ fb =>
                  by_cases hc : c = '"'
                  · simp only [epLoopF, if_pos hc]
                    exact ih _ (by simp only [List.length_drop]; omega) fa fb _
                      (by simp only [List.length_drop]; omega)
                      (by simp only [List.length_drop]; omega)
                  · simp only [epLoopF, if_neg hc]
                    exact ih s2 (by omega) fa fb _ (by omega) (by omega)

theorem epLoop_cons_eq (acc : List (List Char)) (c : Char) (s : List Char) :
    epLoop acc (c :: s) =
      if c = '"' then
        let raw := scanValue '"' s
        let acc2 :=
          if raw.length > 0 then
            let ep := unesc2 raw
            if ep.length > 0 ∧ acc.length < MAX_ENDPOINTS then acc ++ [ep] else acc
          else acc
        epLoop acc2 (s.drop (raw.length + 1))
      else epLoop acc s := by
  show epLoopF (c :: s).length acc (c :: s) = _
  simp only [List.length_cons, epLoopF]
  by_cases hc : c = '"'
  · simp only [if_pos hc]
    exact epLoopF_irrel s.length _ (by simp only [List.length_drop]; omega) _ _ _
      (by simp only [List.length_drop]; omega) le_rfl
  · simp only [if_neg hc]
    rfl

theorem epElemsF_irrel (n : Nat) : ∀ s : List Char, s.length ≤ n →
    ∀ f1 f2, s.length ≤ f1 → s.length ≤ f2 →
    epElemsF f1 s = epElemsF f2 s := by
  induction n with
  | zero =>
      intro s hs f1 f2 h1 h2
      have hnil : s = [] := List.length_eq_zero.mp (by omega)
      subst hnil
      cases f1 <;> cases f2 <;> rfl
  | succ n ih =>
      intro s hs f1 f2 h1 h2
      cases s with
      | nil => cases f1 <;> cases f2 <;> rfl
      | cons c s2 =>
          simp only [List.length_cons] at hs h1 h2
          cases f1 with
          | zero => omega
          | succ fa =>
              cases f2 with
              | zero => omega
              | succ fb =>
                  by_cases hc : c = '"'
                  · simp only [epElemsF, if_pos hc]
                    rw [ih _ (by simp only [List.length_drop]; omega) fa fb
                      (by simp only [List.length_drop]; omega)
                      (by simp only [List.length_drop]; omega)]
                  · simp only [epElemsF, if_neg hc]
                    exact ih s2 (by omega) fa fb (by omega) (by omega)

theorem epElems_cons_eq (c : Char) (s : List Char) :
    epElems (c :: s) =
      if c = '"' then
        let raw := scanValue '"' s
        (if raw.length > 0 then [unesc2 raw] else []) ++
          epElems (s.drop (raw.length + 1))
      else epElems s := by
  show epElemsF (c :: s).length (c :: s) = _
  simp only [List.length_cons, epElemsF]
  by_cases hc : c = '"'
  · simp only [if_pos hc]
    rw [epElemsF_irrel s.length _ (by simp only [List.length_drop]; omega) _ _
      (by simp only [List.length_drop]; omega) le_rfl]
    rfl
  · simp only [if_neg hc]
    rfl

theorem epElems_nil : epElems [] = [] := rfl

theorem epLoop_nil (acc : List (List Char)) : epLoop acc [] = acc := rfl

theorem epLoop_cons_skip (acc : List (List Char)) (c : Char) (s : List Char)
    (h : c ≠ '"') : epLoop acc (c :: s) = epLoop acc s := by
  rw [epLoop_cons_eq]
  simp [h]

theorem epLoop_body (acc : List (List Char)) (e T : List Char)
    (he : e ≠ []) (hlast : e.getLast? ≠ some '\\')
    (hchars : ∀ c ∈ e, c ≠ '\n' ∧ c ≠ '\r' ∧ c ≠ '\t')
    (hacc : acc.length < 5) :
    epLoop acc ('"' :: (escapeJson e ++ '"' :: T)) = epLoop (acc ++ [e]) T := by
  have hscan : scanValue '"' (escapeJson e ++ '"' :: T) = escapeJson e :=
    scan_esc e '"' T (lastNotBS_of '"' e hlast (by decide))
  have hu : unesc2 (escapeJson e) = e := by rw [unesc2_esc, esc2_id e hchars]
  have hlen : (escapeJson e).length > 0 := List.length_pos.mpr (escapeJson_ne_nil e he)
  have helen : e.length > 0 := List.length_pos.mpr he
  have hdrop : (escapeJson e ++ '"' :: T).drop ((escapeJson e).length + 1) = T := by
    rw [List.drop_append]
    simp
  rw [epLoop_cons_eq]
  simp only [hscan, hu, if_pos rfl, hdrop, hlen, if_true]
  rw [if_pos (⟨helen, by simpa [MAX_ENDPOINTS] using hacc⟩ :
    e.length > 0 ∧ acc.length < MAX_ENDPOINTS)]

theorem epLoop_chain (es : List (List Char)) : ∀ acc : List (List Char),
    acc.length + es.length ≤ 5 →
    (∀ e ∈ es, e ≠ [] ∧ e.getLast? ≠ some '\\' ∧
      ∀ c ∈ e, c ≠ '\n' ∧ c ≠ '\r' ∧ c ≠ '\t') →
    epLoop acc (epJsonRest es) = acc ++ es := by
  induction es with
  | nil =>
      intro acc _ _
      simp [epJsonRest, epLoop_nil]
  | cons e rest ih =>
      intro acc hlen hes
      obtain ⟨he, hlast, hchars⟩ := hes e (by simp)
      rw [epJsonRest, epLoop_cons_skip _ _ _ (by decide),
          epLoop_body acc e _ he hlast hchars (by simp at hlen ⊢; omega),
          ih (acc ++ [e]) (by simp at hlen ⊢; omega)
            (fun x hx => hes x (by simp [hx]))]
      simp

theorem epLoop_epJson (es : List (List Char))
    (hlen : es.length ≤ 5)
    (hes : ∀ e ∈ es, e ≠ [] ∧ e.getLast? ≠ some '\\' ∧
      ∀ c ∈ e, c ≠ '\n' ∧ c ≠ '\r' ∧ c ≠ '\t') :
    epLoop [] (epJson es) = es := by
  cases es with
  | nil => simp [epJson, epLoop_nil]
  | cons e rest =>
      obtain ⟨he, hlast, hchars⟩ := hes e (by simp)
      rw [epJson, epLoop_body [] e _ he hlast hchars (by simp), List.nil_append,
          epLoop_chain rest [e] (by simp at hlen ⊢; omega)
            (fun x hx => hes x (by simp [hx]))]
      simp

/-! ### Decomposing an encoded blob at each key -/

theorem chunksOf_append (xs ys : List (List Char × List Char)) :
    chunksOf (xs ++ ys) = chunksOf xs ++ chunksOf ys := by
  induction xs with
  | nil => simp [chunksOf]
  | cons p rest ih => simp [chunksOf, ih]

theorem litLoc : "\x7b\"locationName\":\"".toList =
    '\x7b' :: patStr "locationName".toList := by decide

theorem litNet : "\",\"networkName\":\"".toList =
    '"' :: ',' :: patStr "networkName".toList := by decide

theorem litMainS : "\",\"mainSSID\":\"".toList =
    '"' :: ',' :: patStr "mainSSID".toList := by decide

theorem litMainP : "\",\"mainPass\":\"".toList =
    '"' :: ',' :: patStr "mainPass".toList := by decide

theorem litAltS : "\",\"altSSID\":\"".toList =
    '"' :: ',' :: patStr "altSSID".toList := by decide

theorem litAltP : "\",\"altPass\":\"".toList =
    '"' :: ',' :: patStr "altPass".toList := by decide

theorem litDevS : "\",\"devSSID\":\"".toList =
    '"' :: ',' :: patStr "devSSID".toList := by decide

theorem litDevP : "\",\"devPass\":\"".toList =
    '"' :: ',' :: patStr "devPass".toList := by decide

theorem litNum : "\",\"checkInterval\":".toList =
    '"' :: ',' :: patNum "checkInterval".toList := by decide

theorem litEp : ",\"endpoints\":[".toList =
    ',' :: "\"endpoints\":[".toList := by decide

theorem litEnd : "]\x7d".toList = ']' :: ['\x7d'] := by decide

theorem toJson_decomp1 (r : DeviceSettings) :
    toJson r = (['\x7b'] ++ chunksOf (ps1 r)) ++
      (patStr "locationName".toList ++
        (escapeJson r.locationName ++ '"' :: ',' :: tail2 r)) := by
  simp only [toJson, litLoc, litNet, litMainS, litMainP, litAltS, litAltP,
    litDevS, litDevP, litNum, litEp, litEnd,
    tail2, tail3, tail4, tail5, tail6, tail7, tail8, tailNum, tailEp,
    ps1, chunksOf,
    List.append_assoc, List.cons_append, List.nil_append, List.append_nil,
    List.singleton_append]

theorem toJson_decomp2 (r : DeviceSettings) :
    toJson r = (['\x7b'] ++ chunksOf (ps2 r)) ++
      (patStr "networkName".toList ++
        (escapeJson r.networkName ++ '"' :: ',' :: tail3 r)) := by
  simp only [toJson, litLoc, litNet, litMainS, litMainP, litAltS, litAltP,
    litDevS, litDevP, litNum, litEp, litEnd,
    tail3, tail4, tail5, tail6, tail7, tail8, tailNum, tailEp,
    ps2, chunksOf, fieldChunk,
    List.append_assoc, List.cons_append, List.nil_append, List.append_nil,
    List.singleton_append]

theorem toJson_decomp3 (r : DeviceSettings) :
    toJson r = (['\x7b'] ++ chunksOf (ps3 r)) ++
      (patStr "mainSSID".toList ++
        (escapeJson r.mainSSID ++ '"' :: ',' :: tail4 r)) := by
  simp only [toJson, litLoc, litNet, litMainS, litMainP, litAltS, litAltP,
    litDevS, litDevP, litNum, litEp, litEnd,
    tail4, tail5, tail6, tail7, tail8, tailNum, tailEp,
    ps3, ps2, chunksOf, chunksOf_append, fieldChunk,
    List.append_assoc, List.cons_append, List.nil_append, List.append_nil,
    List.singleton_append]

theorem toJson_decomp4 (r : DeviceSettings) :
    toJson r = (['\x7b'] ++ chunksOf (ps4 r)) ++
      (patStr "mainPass".toList ++
        (escapeJson r.mainPass ++ '"' :: ',' :: tail5 r)) := by
  simp only [toJson, litLoc, litNet, litMainS, litMainP, litAltS, litAltP,
    litDevS, litDevP, litNum, litEp, litEnd,
    tail5, tail6, tail7, tail8, tailNum, tailEp,
    ps4, ps3, ps2, chunksOf, chunksOf_append, fieldChunk,
    List.append_assoc, List.cons_append, List.nil_append, List.append_nil,
    List.singleton_append]

theorem toJson_decomp5 (r : DeviceSettings) :
    toJson r = (['\x7b'] ++ chunksOf (ps5 r)) ++
      (patStr "altSSID".toList ++
        (escapeJson r.altSSID ++ '"' :: ',' :: tail6 r)) := by
  simp only [toJson, litLoc, litNet, litMainS, litMainP, litAltS, litAltP,
    litDevS, litDevP, litNum, litEp, litEnd,
    tail6, tail7, tail8, tailNum, tailEp,
    ps5, ps4, ps3, ps2, chunksOf, chunksOf_append, fieldChunk,
    List.append_assoc, List.cons_append, List.nil_append, List.append_nil,
    List.singleton_append]

theorem toJson_decomp6 (r : DeviceSettings) :
    toJson r = (['\x7b'] ++ chunksOf (ps6 r)) ++
      (patStr "altPass".toList ++
        (escapeJson r.altPass ++ '"' :: ',' :: tail7 r)) := by
  simp only [toJson, litLoc, litNet, litMainS, litMainP, litAltS, litAltP,
    litDevS, litDevP, litNum, litEp, litEnd,
    tail7, tail8, tailNum, tailEp,
    ps6, ps5, ps4, ps3, ps2, chunksOf, chunksOf_append, fieldChunk,
    List.append_assoc, List.cons_append, List.nil_append, List.append_nil,
    List.singleton_append]

theorem toJson_decomp7 (r : DeviceSettings) :
    toJson r = (['\x7b'] ++ chunksOf (ps7 r)) ++
      (patStr "devSSID".toList ++
        (escapeJson r.devSSID ++ '"' :: ',' :: tail8 r)) := by
  simp only [toJson, litLoc, litNet, litMainS, litMainP, litAltS, litAltP,
    litDevS, litDevP, litNum, litEp, litEnd,
    tail8, tailNum, tailEp,
    ps7, ps6, ps5, ps4, ps3, ps2, chunksOf, chunksOf_append, fieldChunk,
    List.append_assoc, List.cons_append, List.nil_append, List.append_nil,
    List.singleton_append]

theorem toJson_decomp8 (r : DeviceSettings) :
    toJson r = (['\x7b'] ++ chunksOf (ps8 r)) ++
      (patStr "devPass".toList ++
        (escapeJson r.devPass ++ '"' :: ',' :: tailNum r)) := by
  simp only [toJson, litLoc, litNet, litMainS, litMainP, litAltS, litAltP,
    litDevS, litDevP, litNum, litEp, litEnd,
    tailNum, tailEp,
    ps8, ps7, ps6, ps5, ps4, ps3, ps2, chunksOf, chunksOf_append, fieldChunk,
    List.append_assoc, List.cons_append, List.nil_append, List.append_nil,
    List.singleton_append]

theorem toJson_decompNum (r : DeviceSettings) :
    toJson r = (['\x7b'] ++ chunksOf (ps9 r)) ++
      (patNum "checkInterval".toList ++
        (natToChars r.checkInterval ++ ',' :: tailEp r)) := by
  simp only [toJson, litLoc, litNet, litMainS, litMainP, litAltS, litAltP,
    litDevS, litDevP, litNum, litEp, litEnd,
    tailEp,
    ps9, ps8, ps7, ps6, ps5, ps4, ps3, ps2, chunksOf, chunksOf_append, fieldChunk,
    List.append_assoc, List.cons_append, List.nil_append, List.append_nil,
    List.singleton_append]

theorem toJson_decompMark (r : DeviceSettings) :
    toJson r = ((['\x7b'] ++ chunksOf (ps9 r)) ++
        (patNum "checkInterval".toList ++ (natToChars r.checkInterval ++ [',']))) ++
      ("\"endpoints\":[".toList ++ (epJson r.endpoints ++ ']' :: ['\x7d'])) := by
  simp only [toJson, litLoc, litNet, litMainS, litMainP, litAltS, litAltP,
    litDevS, litDevP, litNum, litEp, litEnd,
    ps9, ps8, ps7, ps6, ps5, ps4, ps3, ps2, chunksOf, chunksOf_append, fieldChunk,
    List.append_assoc, List.cons_append, List.nil_append, List.append_nil,
    List.singleton_append]

/-! ### Extraction of each field from an encoded blob -/

theorem hl_of_keys (keys : List (List Char)) (pat : List Char)
    (H : ∀ k ∈ keys, ∀ t ∈ tails (patStr k), t ≠ [] →
      t = ['"'] ∨ incompB pat t = true)
    (ps : List (List Char × List Char)) (hps : ps.map Prod.fst = keys) :
    ∀ p ∈ ps, ∀ t ∈ tails (patStr p.1), t ≠ [] →
      t = ['"'] ∨ incompB pat t = true := by
  intro p hp
  apply H
  rw [← hps]
  exact List.mem_map_of_mem _ hp

theorem extract_loc (r : DeviceSettings) (hf : GoodField r.locationName) :
    extractString (toJson r) "locationName".toList = r.locationName := by
  rw [toJson_decomp1 r]
  exact extractString_blob "locationName".toList r.locationName (tail2 r) (ps1 r)
    (by decide) (by decide)
    (hl_of_keys [] _ (by decide) (ps1 r) (by simp [ps1]))
    hf.1 hf.2

theorem extract_net (r : DeviceSettings) (hf : GoodField r.networkName) :
    extractString (toJson r) "networkName".toList = r.networkName := by
  rw [toJson_decomp2 r]
  exact extractString_blob "networkName".toList r.networkName (tail3 r) (ps2 r)
    (by decide) (by decide)
    (hl_of_keys ["locationName".toList] _ (by decide) (ps2 r) (by simp [ps2]))
    hf.1 hf.2

theorem extract_mainSSID (r : DeviceSettings) (hf : GoodField r.mainSSID) :
    extractString (toJson r) "mainSSID".toList = r.mainSSID := by
  rw [toJson_decomp3 r]
  exact extractString_blob "mainSSID".toList r.mainSSID (tail4 r) (ps3 r)
    (by decide) (by decide)
    (hl_of_keys ["locationName".toList, "networkName".toList] _ (by decide)
      (ps3 r) (by simp [ps3, ps2]))
    hf.1 hf.2

theorem extract_mainPass (r : DeviceSettings) (hf : GoodField r.mainPass) :
    extractString (toJson r) "mainPass".toList = r.mainPass := by
  rw [toJson_decomp4 r]
  exact extractString_blob "mainPass".toList r.mainPass (tail5 r) (ps4 r)
    (by decide) (by decide)
    (hl_of_keys ["locationName".toList, "networkName".toList,
      "mainSSID".toList] _ (by decide) (ps4 r) (by simp [ps4, ps3, ps2]))
    hf.1 hf.2

theorem extract_altSSID (r : DeviceSettings) (hf : GoodField r.altSSID) :
    extractString (toJson r) "altSSID".toList = r.altSSID := by
  rw [toJson_decomp5 r]
  exact extractString_blob "altSSID".toList r.altSSID (tail6 r) (ps5 r)
    (by decide) (by decide)
    (hl_of_keys ["locationName".toList, "networkName".toList, "mainSSID".toList,
      "mainPass".toList] _ (by decide) (ps5 r) (by simp [ps5, ps4, ps3, ps2]))
    hf.1 hf.2

theorem extract_altPass (r : DeviceSettings) (hf : GoodField r.altPass) :
    extractString (toJson r) "altPass".toList = r.altPass := by
  rw [toJson_decomp6 r]
  exact extractString_blob "altPass".toList r.altPass (tail7 r) (ps6 r)
    (by decide) (by decide)
    (hl_of_keys ["locationName".toList, "networkName".toList, "mainSSID".toList,
      "mainPass".toList, "altSSID".toList] _ (by decide) (ps6 r)
      (by simp [ps6, ps5, ps4, ps3, ps2]))
    hf.1 hf.2

theorem extract_devSSID (r : DeviceSettings) (hf : GoodField r.devSSID) :
    extractString (toJson r) "devSSID".toList = r.devSSID := by
  rw [toJson_decomp7 r]
  exact extractString_blob "devSSID".toList r.devSSID (tail8 r) (ps7 r)
    (by decide) (by decide)
    (hl_of_keys ["locationName".toList, "networkName".toList, "mainSSID".toList,
      "mainPass".toList, "altSSID".toList, "altPass".toList] _ (by decide)
      (ps7 r) (by simp [ps7, ps6, ps5, ps4, ps3, ps2]))
    hf.1 hf.2

theorem extract_devPass (r : DeviceSettings) (hf : GoodField r.devPass) :
    extractString (toJson r) "devPass".toList = r.devPass := by
  rw [toJson_decomp8 r]
  exact extractString_blob "devPass".toList r.devPass (tailNum r) (ps8 r)
    (by decide) (by decide)
    (hl_of_keys ["locationName".toList, "networkName".toList, "mainSSID".toList,
      "mainPass".toList, "altSSID".toList, "altPass".toList,
      "devSSID".toList] _ (by decide) (ps8 r)
      (by simp [ps8, ps7, ps6, ps5, ps4, ps3, ps2]))
    hf.1 hf.2

theorem extract_ci (r : DeviceSettings) :
    extractNumber (toJson r) "checkInterval".toList = (r.checkInterval : Int) := by
  rw [toJson_decompNum r]
  exact extractNumber_blob "checkInterval".toList (',' :: tailEp r)
    r.checkInterval (ps9 r)
    (by decide) (by decide)
    (hl_of_keys ["locationName".toList, "networkName".toList, "mainSSID".toList,
      "mainPass".toList, "altSSID".toList, "altPass".toList, "devSSID".toList,
      "devPass".toList] _ (by decide) (ps9 r)
      (by simp [ps9, ps8, ps7, ps6, ps5, ps4, ps3, ps2]))
    (by rw [List.takeWhile_cons]; simp)

theorem epJson_ne_nil (es : List (List Char)) (h : es ≠ []) : epJson es ≠ [] := by
  cases es with
  | nil => exact absurd rfl h
  | cons e rest => simp [epJson]

theorem mark_find (r : DeviceSettings) :
    findSub "\"endpoints\":[".toList (toJson r)
      = some (((['\x7b'] ++ chunksOf (ps9 r)) ++
          (patNum "checkInterval".toList ++
            (natToChars r.checkInterval ++ [',']))).length) := by
  rw [toJson_decompMark r]
  have hmeq : "\"endpoints\":[".toList =
      '"' :: "endpoints".toList ++ '"' :: ':' :: ['['] := by decide
  rw [hmeq]
  have hNE : noEarly ('"' :: "endpoints".toList ++ '"' :: ':' :: ['['])
      ((['\x7b'] ++ chunksOf (ps9 r)) ++
        (patNum "checkInterval".toList ++ (natToChars r.checkInterval ++ [','])))
      (('"' :: "endpoints".toList ++ '"' :: ':' :: ['[']) ++
        (epJson r.endpoints ++ ']' :: ['\x7d'])) := by
    apply noEarly_append
    · exact noEarly_A "endpoints".toList ['['] (ps9 r) _ (by decide) (by decide)
        (hl_of_keys ["locationName".toList, "networkName".toList,
          "mainSSID".toList, "mainPass".toList, "altSSID".toList,
          "altPass".toList, "devSSID".toList, "devPass".toList] _ (by decide)
          (ps9 r) (by simp [ps9, ps8, ps7, ps6, ps5, ps4, ps3, ps2]))
    · apply noEarly_append
      · exact noEarly_of_incomp _ _ _ (by decide)
      · apply noEarly_append
        · exact noEarly_allDigits _ _ _ (natToChars_digits r.checkInterval)
        · exact noEarly_of_incomp _ _ _ (by decide)
  rw [findSub_append _ _ _ hNE, findSub_prefix _ _ (List.prefix_append _ _)]
  simp

theorem mark_drop (r : DeviceSettings) :
    (toJson r).drop (((['\x7b'] ++ chunksOf (ps9 r)) ++
        (patNum "checkInterval".toList ++
          (natToChars r.checkInterval ++ [',']))).length + 13)
      = epJson r.endpoints ++ ']' :: ['\x7d'] := by
  rw [toJson_decompMark r, List.drop_append]
  exact List.drop_left' (by decide)

theorem rb_find (r : DeviceSettings)
    (h : ∀ e ∈ r.endpoints, (']' : Char) ∉ e) :
    findSub [']'] (epJson r.endpoints ++ ']' :: ['\x7d'])
      = some (epJson r.endpoints).length := by
  rw [findSub_append _ _ _ (noEarly_single_notMem ']' _ _ (rb_not_mem_epJson _ h)),
      findSub_prefix _ _ (List.cons_prefix_cons.mpr ⟨rfl, List.nil_prefix⟩)]
  simp

/-- One encode/decode pass on a well-formed record succeeds and returns the
record unchanged except for the location-name sentinel. -/
theorem fromJson_toJson (r : DeviceSettings) (hg : Good r) :
    fromJson (toJson r) = (true, normalizeRec r) := by
  obtain ⟨hf1, hf2, hf3, hf4, hf5, hf6, hf7, hf8, hci1, _hci2, hlen, heps⟩ := hg
  have hx1 := extract_loc r hf1
  have hx2 := extract_net r hf2
  have hx3 := extract_mainSSID r hf3
  have hx4 := extract_mainPass r hf4
  have hx5 := extract_altSSID r hf5
  have hx6 := extract_altPass r hf6
  have hx7 := extract_devSSID r hf7
  have hx8 := extract_devPass r hf8
  have hxN := extract_ci r
  have hrbmem : ∀ e ∈ r.endpoints, (']' : Char) ∉ e :=
    fun e he hm => ((heps e he).2.2 ']' hm).2.2.2 rfl
  have hmark := mark_find r
  have hdropm := mark_drop r
  have hrb := rb_find r hrbmem
  have heploop : epLoop [] (epJson r.endpoints) = r.endpoints :=
    epLoop_epJson _ (by simpa [MAX_ENDPOINTS] using hlen)
      (fun e he => ⟨(heps e he).1, (heps e he).2.1,
        fun c hc => ⟨((heps e he).2.2 c hc).1, ((heps e he).2.2 c hc).2.1,
          ((heps e he).2.2 c hc).2.2.1⟩⟩)
  have hciCond : (0 : Int) < (r.checkInterval : Int) := by exact_mod_cast hci1
  simp only [fromJson, hx1, hx2, hx3, hx4, hx5, hx6, hx7, hx8, hxN, hmark,
    hdropm, hrb, List.take_left, heploop]
  by_cases hE : r.endpoints = []
  · simp only [hE, epJson, List.length_nil, gt_iff_lt, Nat.lt_irrefl, if_false,
      normalizeRec, if_pos hciCond]
    simp [Prod.ext_iff, DeviceSettings.mk.injEq, Int.toNat_natCast]
  · have hpos : (epJson r.endpoints).length > 0 :=
      List.length_pos.mpr (epJson_ne_nil _ hE)
    simp only [if_pos hpos, if_pos hciCond, normalizeRec]
    simp [Prod.ext_iff, DeviceSettings.mk.injEq, Int.toNat_natCast]

/-! ### Support lemmas for the claim-level theorems -/

theorem hasSub_iff_infix (pat s : List Char) : hasSub pat s = true ↔ pat <:+: s := by
  induction s with
  | nil =>
      cases pat with
      | nil => simp [hasSub, findSub, List.isPrefixOf]
      | cons p ps => simp [hasSub, findSub, List.isPrefixOf]
  | cons c cs ih =>
      rw [List.infix_cons_iff]
      by_cases hp : pat.isPrefixOf (c :: cs) = true
      · have hpre := List.isPrefixOf_iff_prefix.mp hp
        simp [hasSub, findSub, hp, hpre]
      · have hnp : ¬ pat <+: c :: cs := fun h => hp (List.isPrefixOf_iff_prefix.mpr h)
        have e : hasSub pat (c :: cs) = hasSub pat cs := by
          simp only [hasSub, findSub, if_neg hp]
          cases findSub pat cs <;> simp
        rw [e, ih]
        simp [hnp]

theorem findSub_eq_none_of_hasSub (pat s : List Char) (h : hasSub pat s = false) :
    findSub pat s = none := by
  cases hF : findSub pat s with
  | none => rfl
  | some i =>
      unfold hasSub at h
      rw [hF] at h
      simp at h

theorem findSub_first (pat s : List Char) (k : Nat) (h : findSub pat s = some k) :
    ∀ j, j < k → pat.isPrefixOf (s.drop j) = false := by
  induction s generalizing k with
  | nil =>
      unfold findSub at h
      by_cases hp : pat.isPrefixOf ([] : List Char) = true
      · rw [if_pos hp] at h
        injection h with h0
        intro j hj
        omega
      · rw [if_neg hp] at h
        exact absurd h (by simp)
  | cons c cs ih =>
      unfold findSub at h
      by_cases hp : pat.isPrefixOf (c :: cs) = true
      · rw [if_pos hp] at h
        injection h with h0
        intro j hj
        omega
      · rw [if_neg hp] at h
        cases hF : findSub pat cs with
        | none => rw [hF] at h; simp at h
        | some k2 =>
            rw [hF] at h
            simp only [Option.map_some'] at h
            intro j hj
            cases j with
            | zero =>
                simp only [List.drop_zero]
                cases hB : pat.isPrefixOf (c :: cs) with
                | false => rfl
                | true => exact absurd hB hp
            | succ j2 =>
                simp only [List.drop_succ_cons]
                injection h with h0
                exact ih k2 hF j2 (by omega)

theorem rb_not_in_take (s : List Char) (k : Nat)
    (h : findSub [']'] s = some k) : (']' : Char) ∉ s.take k := by
  induction s generalizing k with
  | nil => simp
  | cons c cs ih =>
      unfold findSub at h
      by_cases hp : ([']'] : List Char).isPrefixOf (c :: cs) = true
      · rw [if_pos hp] at h
        injection h with h0
        subst h0
        simp
      · rw [if_neg hp] at h
        cases hF : findSub [']'] cs with
        | none => rw [hF] at h; simp at h
        | some k2 =>
            rw [hF] at h
            simp only [Option.map_some'] at h
            injection h with h0
            have hc : c ≠ ']' := by
              intro hc
              subst hc
              exact hp (List.isPrefixOf_iff_prefix.mpr (by simp))
            rw [← h0]
            simp only [List.take_succ_cons, List.mem_cons]
            rintro (h1 | h2)
            · exact hc h1.symm
            · exact ih k2 hF h2

theorem epLoop_quote (acc : List (List Char)) (s : List Char) :
    epLoop acc ('"' :: s) =
      epLoop (if (scanValue '"' s).length > 0 then
          (if (unesc2 (scanValue '"' s)).length > 0 ∧ acc.length < MAX_ENDPOINTS
           then acc ++ [unesc2 (scanValue '"' s)] else acc)
        else acc)
        (s.drop ((scanValue '"' s).length + 1)) := by
  rw [epLoop_cons_eq]
  simp

theorem epElems_quote (s : List Char) :
    epElems ('"' :: s) =
      (if (scanValue '"' s).length > 0 then [unesc2 (scanValue '"' s)] else []) ++
        epElems (s.drop ((scanValue '"' s).length + 1)) := by
  rw [epElems_cons_eq]
  simp

theorem epElems_skip (c : Char) (s : List Char) (h : c ≠ '"') :
    epElems (c :: s) = epElems s := by
  rw [epElems_cons_eq]
  simp [h]

theorem unesc2_ne_nil (raw : List Char) (h : raw ≠ []) : unesc2 raw ≠ [] := by
  have h2 := replacePair_ne_nil '\\' '\\' '\\' _
    (replacePair_ne_nil '\\' '"' '"' _ h)
  simpa [unesc2] using h2

theorem epLoop_take_epElems (n : Nat) : ∀ s : List Char, s.length ≤ n →
    ∀ acc : List (List Char), acc.length ≤ 5 →
    epLoop acc s = acc ++ (epElems s).take (5 - acc.length) := by
  induction n with
  | zero =>
      intro s hs acc _
      have hnil : s = [] := List.length_eq_zero.mp (Nat.le_zero.mp hs)
      subst hnil
      simp [epLoop_nil, epElems_nil]
  | succ n ih =>
      intro s hs acc hacc
      cases s with
      | nil => simp [epLoop_nil, epElems_nil]
      | cons c s2 =>
          by_cases hc : c = '"'
          · subst hc
            rw [epLoop_quote, epElems_quote]
            have hs2 : (s2.drop ((scanValue '"' s2).length + 1)).length ≤ n := by
              simp only [List.length_cons] at hs
              simp only [List.length_drop]
              omega
            by_cases hraw : (scanValue '"' s2).length > 0
            · have hep : (unesc2 (scanValue '"' s2)).length > 0 := by
                have h1 : scanValue '"' s2 ≠ [] :=
                  fun hx => by rw [hx] at hraw; simp at hraw
                exact List.length_pos.mpr (unesc2_ne_nil _ h1)
              by_cases hkeep :
                  (unesc2 (scanValue '"' s2)).length > 0 ∧ acc.length < MAX_ENDPOINTS
              · rw [if_pos hraw, if_pos hkeep, if_pos hraw,
                    ih _ hs2 (acc ++ [unesc2 (scanValue '"' s2)])
                      (by simp only [List.length_append, List.length_cons,
                            List.length_nil]
                          simp only [MAX_ENDPOINTS] at hkeep
                          omega)]
                have h5 : 5 - acc.length = (5 - (acc.length + 1)) + 1 := by
                  simp only [MAX_ENDPOINTS] at hkeep
                  omega
                rw [h5]
                simp [List.take_succ_cons, List.append_assoc]
              · have hacc5 : acc.length = 5 := by
                  rcases Nat.lt_or_ge acc.length MAX_ENDPOINTS with hlt | hge
                  · exact absurd ⟨hep, hlt⟩ hkeep
                  · simp only [MAX_ENDPOINTS] at hge
                    omega
                rw [if_pos hraw, if_neg hkeep, if_pos hraw, ih _ hs2 acc hacc]
                simp [hacc5]
            · rw [if_neg hraw, if_neg hraw, ih _ hs2 acc hacc]
              simp
          · rw [epLoop_cons_skip _ _ _ hc, epElems_skip _ _ hc]
            exact ih s2 (by simp only [List.length_cons] at hs; omega) acc hacc

theorem epElems_ne_nil (n : Nat) : ∀ s : List Char, s.length ≤ n →
    ∀ e ∈ epElems s, e ≠ [] := by
  induction n with
  | zero =>
      intro s hs
      have hnil : s = [] := List.length_eq_zero.mp (Nat.le_zero.mp hs)
      subst hnil
      simp [epElems_nil]
  | succ n ih =>
      intro s hs e he
      cases s with
      | nil => simp [epElems_nil] at he
      | cons c s2 =>
          by_cases hc : c = '"'
          · subst hc
            rw [epElems_quote] at he
            have hs2 : (s2.drop ((scanValue '"' s2).length + 1)).length ≤ n := by
              simp only [List.length_cons] at hs
              simp only [List.length_drop]
              omega
            by_cases hraw : (scanValue '"' s2).length > 0
            · rw [if_pos hraw] at he
              simp only [List.singleton_append, List.mem_cons] at he
              rcases he with he | he
              · subst he
                have h1 : scanValue '"' s2 ≠ [] :=
                  fun hx => by rw [hx] at hraw; simp at hraw
                exact unesc2_ne_nil _ h1
              · exact ih _ hs2 e he
            · rw [if_neg hraw] at he
              simp only [List.nil_append] at he
              exact ih _ hs2 e he
          · rw [epElems_skip _ _ hc] at he
            exact ih s2 (by simp only [List.length_cons] at hs; omega) e he

theorem fromJson_endpoints (json : List Char) :
    (fromJson json).2.endpoints = epLoop [] (epRegion json) := by
  have hlit : "\"endpoints\":[".toList
      = ['"', 'e', 'n', 'd', 'p', 'o', 'i', 'n', 't', 's', '"', ':', '['] := by decide
  simp only [fromJson, epRegion, hlit]
  cases hF : findSub ['"', 'e', 'n', 'd', 'p', 'o', 'i', 'n', 't', 's', '"', ':', '['] json with
  | none => simp [hF, epLoop_nil]
  | some i =>
      cases hF2 : findSub [']'] (json.drop (i + 13)) with
      | none => simp [hF, hF2, epLoop_nil]
      | some k =>
          by_cases hk : k > 0
          · simp [hF, hF2, hk]
          · simp [hF, hF2, hk, epLoop_nil]

theorem escapeJson_nil : escapeJson [] = [] := rfl

theorem escapeJson_cons (c : Char) (v : List Char) :
    escapeJson (c :: v) = escMapSpec c ++ escapeJson v := rfl

theorem good_normalizeRec (r : DeviceSettings) (hg : Good r) :
    Good (normalizeRec r) := by
  obtain ⟨hf1, hf2, hf3, hf4, hf5, hf6, hf7, hf8, hci1, hci2, hlen, heps⟩ := hg
  refine ⟨?_, hf2, hf3, hf4, hf5, hf6, hf7, hf8, hci1, hci2, hlen, heps⟩
  show GoodField (if r.locationName = [] then "unset".toList else r.locationName)
  by_cases hl : r.locationName = []
  · rw [if_pos hl]
    exact ⟨by decide, by decide⟩
  · rw [if_neg hl]
    exact hf1

theorem normalizeRec_idem (r : DeviceSettings) :
    normalizeRec (normalizeRec r) = normalizeRec r := by
  by_cases hl : r.locationName = []
  · have h1 : normalizeRec r = { r with locationName := "unset".toList } := by
      simp [normalizeRec, hl]
    have hne : ("unset".toList : List Char) ≠ [] := by decide
    rw [h1]
    simp [normalizeRec, hne]
  · have h1 : normalizeRec r = r := by
      simp [normalizeRec, hl]
    rw [h1, h1]

/-! ### The claims -/

theorem fromJson_checkInterval (json : List Char) :
    (fromJson json).2.checkInterval =
      (if extractNumber json "checkInterval".toList > 0
       then (extractNumber json "checkInterval".toList).toNat else 600000) := by
  simp only [fromJson]

/-- Claim C1 (corrected): one decode of an encode does not reproduce every
record whose fields merely contain escapable characters — a text field
ending in a backslash is mis-parsed (the closing quote looks escaped), so
the claim as stated fails.  It does hold, with the location-name sentinel,
on every record whose fields have no trailing backslash and no literal
backslash-n/r/t run, and whose endpoint elements are additionally non-empty
and free of newline, carriage return, tab and `]` (`Good`). -/
theorem c1_roundtrip (r : DeviceSettings) (hg : Good r) :
    fromJson (toJson r) = (true, normalizeRec r) :=
  fromJson_toJson r hg

/-- Claim C1, counterexample to the claim as stated: the record whose
location name is `a\` (an escapable character, one to five endpoints not
even involved) decodes to `a",` after one encode, not back to `a\`. -/
theorem c1_counterexample :
    (fromJson (toJson { setDefaults with locationName := ['a', '\\'] })).2.locationName
      ≠ ['a', '\\'] := by
  decide

/-- Claim C1, witness: a concrete `Good` record whose fields contain a
quote, backslashes, newline, carriage return and tab round-trips. -/
theorem c1_roundtrip_witness :
    Good { setDefaults with
        locationName := ['a', '"', 'b'],
        networkName := ['\n', '\t', '\r', 'x', '\\', '\\', 'y'],
        endpoints := [['h', '"', 'x'], ['b', '\\', '\\', 'c']] } ∧
    fromJson (toJson { setDefaults with
        locationName := ['a', '"', 'b'],
        networkName := ['\n', '\t', '\r', 'x', '\\', '\\', 'y'],
        endpoints := [['h', '"', 'x'], ['b', '\\', '\\', 'c']] })
      = (true, normalizeRec { setDefaults with
          locationName := ['a', '"', 'b'],
          networkName := ['\n', '\t', '\r', 'x', '\\', '\\', 'y'],
          endpoints := [['h', '"', 'x'], ['b', '\\', '\\', 'c']] }) :=
  ⟨by decide, c1_roundtrip _ (by decide)⟩

/-- Claim C2 (corrected): on a mounted backend with no config file, `begin`
does reset the record to defaults and attempt a save, but when that save
fails it returns `false` immediately — it does not proceed to the load step,
and the initialized flag stays `false` (source lines 44–47).  When the save
succeeds, `begin` proceeds to load, returns `true`, ends with the default
record and sets the initialized flag. -/
theorem c2_begin_firstBoot (fs : Backend) (st : StoreState)
    (hm : fs.mountOk = true) (hf : fs.file = none) :
    (fs.canWrite = false →
      begin fs st = (fs, { st with settings := setDefaults }, false)) ∧
    (fs.canWrite = true →
      (begin fs st).2.2 = true ∧ (begin fs st).2.1.initialized = true ∧
      (begin fs st).2.1.settings = setDefaults) := by
  constructor
  · intro hw
    simp [begin, hm, isFirstBoot, hf, saveSettings, hw]
  · intro hw
    have hfj : fromJson (toJson setDefaults) = (true, setDefaults) := by
      rw [fromJson_toJson setDefaults (by decide)]
      have hn : normalizeRec setDefaults = setDefaults := by decide
      rw [hn]
    cases hcr : fs.canRead with
    | false =>
        simp [begin, hm, isFirstBoot, hf, saveSettings, hw, loadSettings, hcr]
    | true =>
        simp [begin, hm, isFirstBoot, hf, saveSettings, hw, loadSettings, hcr, hfj]

/-- Claim C2, counterexample to the claim as stated: mounted backend, no
file, save failing (`canWrite = false`): `begin` aborts with `false` and the
initialized flag is never set. -/
theorem c2_counterexample :
    (begin ⟨true, true, false, none⟩ ⟨setDefaults, false⟩).2.2 = false ∧
    (begin ⟨true, true, false, none⟩ ⟨setDefaults, false⟩).2.1.initialized = false := by
  decide

/-- Claim C2, witness: both branches of the amended statement at concrete
backends. -/
theorem c2_begin_firstBoot_witness :
    begin ⟨true, true, false, none⟩ ⟨blankRecord, false⟩
      = (⟨true, true, false, none⟩,
         { (⟨blankRecord, false⟩ : StoreState) with settings := setDefaults }, false) ∧
    ((begin ⟨true, false, true, none⟩ ⟨blankRecord, false⟩).2.2 = true ∧
     (begin ⟨true, false, true, none⟩ ⟨blankRecord, false⟩).2.1.initialized = true ∧
     (begin ⟨true, false, true, none⟩ ⟨blankRecord, false⟩).2.1.settings = setDefaults) :=
  ⟨(c2_begin_firstBoot ⟨true, true, false, none⟩ ⟨blankRecord, false⟩ rfl rfl).1 rfl,
   (c2_begin_firstBoot ⟨true, false, true, none⟩ ⟨blankRecord, false⟩ rfl rfl).2 rfl⟩

/-- Claim C3 (corrected): decode is total — it returns `true` on every
input — and on text containing none of the search keys it yields a fully
populated record; but that record is `blankRecord` (empty text fields,
sentinel location name, default interval, no endpoints), not the built-in
defaults record: the non-location text fields become empty, not
`setDefaults`' values such as `cluster1`. -/
theorem c3_decode_total (json : List Char) :
    (fromJson json).1 = true ∧
    ((∀ k ∈ ["locationName".toList, "networkName".toList, "mainSSID".toList,
        "mainPass".toList, "altSSID".toList, "altPass".toList,
        "devSSID".toList, "devPass".toList], hasSub (patStr k) json = false) →
      hasSub (patNum "checkInterval".toList) json = false →
      hasSub "\"endpoints\":[".toList json = false →
      (fromJson json).2 = blankRecord) := by
  refine ⟨by simp [fromJson], ?_⟩
  intro hks hnum hmark
  have e1 := extractString_eq_none json "locationName".toList
    (findSub_eq_none_of_hasSub _ _ (hks _ (by simp)))
  have e2 := extractString_eq_none json "networkName".toList
    (findSub_eq_none_of_hasSub _ _ (hks _ (by simp)))
  have e3 := extractString_eq_none json "mainSSID".toList
    (findSub_eq_none_of_hasSub _ _ (hks _ (by simp)))
  have e4 := extractString_eq_none json "mainPass".toList
    (findSub_eq_none_of_hasSub _ _ (hks _ (by simp)))
  have e5 := extractString_eq_none json "altSSID".toList
    (findSub_eq_none_of_hasSub _ _ (hks _ (by simp)))
  have e6 := extractString_eq_none json "altPass".toList
    (findSub_eq_none_of_hasSub _ _ (hks _ (by simp)))
  have e7 := extractString_eq_none json "devSSID".toList
    (findSub_eq_none_of_hasSub _ _ (hks _ (by simp)))
  have e8 := extractString_eq_none json "devPass".toList
    (findSub_eq_none_of_hasSub _ _ (hks _ (by simp)))
  have eN := extractNumber_eq_none json "checkInterval".toList
    (findSub_eq_none_of_hasSub _ _ hnum)
  have eM := findSub_eq_none_of_hasSub _ _ hmark
  have hneg : ¬ ((-1 : Int) > 0) := by decide
  simp at e1 e2 e3 e4 e5 e6 e7 e8 eN eM
  simp [fromJson, e1, e2, e3, e4, e5, e6, e7, e8, eN, eM, hneg, blankRecord]

/-- Claim C3, counterexample to the claim as stated: decoding the empty
string succeeds, but the record's `mainSSID` is empty, not the built-in
default value (`cluster1`) of `setDefaults`. -/
theorem c3_counterexample :
    (fromJson []).1 = true ∧ (fromJson []).2.mainSSID ≠ setDefaults.mainSSID := by
  decide

/-- Claim C3, witness: arbitrary non-JSON text decodes successfully to the
blank record. -/
theorem c3_decode_total_witness :
    (fromJson "hello".toList).1 = true ∧ (fromJson "hello".toList).2 = blankRecord :=
  ⟨(c3_decode_total "hello".toList).1,
   (c3_decode_total "hello".toList).2 (by decide) (by decide) (by decide)⟩

/-- Claim C4: when the literal `"checkInterval":` is absent the decoded
interval is 600000; when the parsed integer is zero or negative it is
600000; when it is positive it is the parsed value. -/
theorem c4_checkInterval_default (json : List Char) :
    (hasSub (patNum "checkInterval".toList) json = false →
      (fromJson json).2.checkInterval = 600000) ∧
    (extractNumber json "checkInterval".toList ≤ 0 →
      (fromJson json).2.checkInterval = 600000) ∧
    (0 < extractNumber json "checkInterval".toList →
      (fromJson json).2.checkInterval
        = (extractNumber json "checkInterval".toList).toNat) := by
  refine ⟨?_, ?_, ?_⟩
  · intro h
    have hn := extractNumber_eq_none json "checkInterval".toList
      (findSub_eq_none_of_hasSub _ _ h)
    rw [fromJson_checkInterval, hn]
    decide
  · intro h
    rw [fromJson_checkInterval, if_neg (by omega)]
  · intro h
    rw [fromJson_checkInterval, if_pos h]

/-- Claim C4, witness: the three cases at concrete inputs (key absent,
value 0, value 42). -/
theorem c4_checkInterval_default_witness :
    (hasSub (patNum "checkInterval".toList) "nope".toList = false ∧
      (fromJson "nope".toList).2.checkInterval = 600000) ∧
    (extractNumber "\x7b\"checkInterval\":0\x7d".toList "checkInterval".toList ≤ 0 ∧
      (fromJson "\x7b\"checkInterval\":0\x7d".toList).2.checkInterval = 600000) ∧
    (0 < extractNumber "\x7b\"checkInterval\":42\x7d".toList "checkInterval".toList ∧
      (fromJson "\x7b\"checkInterval\":42\x7d".toList).2.checkInterval
        = (extractNumber "\x7b\"checkInterval\":42\x7d".toList
            "checkInterval".toList).toNat) :=
  ⟨⟨by decide, (c4_checkInterval_default "nope".toList).1 (by decide)⟩,
   ⟨by decide, (c4_checkInterval_default "\x7b\"checkInterval\":0\x7d".toList).2.1
      (by decide)⟩,
   ⟨by decide, (c4_checkInterval_default "\x7b\"checkInterval\":42\x7d".toList).2.2
      (by decide)⟩⟩

/-- Claim C5: when the endpoints region lists more than five elements,
decode succeeds and yields exactly the first five non-empty elements in
original order (`epElems` enumerates the region's non-empty unescaped
elements in encounter order); the rest are silently dropped, and no empty
element is ever appended. -/
theorem c5_endpoints_bound (json : List Char)
    (h : 5 < (epElems (epRegion json)).length) :
    (fromJson json).1 = true ∧
    (fromJson json).2.endpoints = (epElems (epRegion json)).take 5 ∧
    (fromJson json).2.endpoints.length = 5 ∧
    ∀ e ∈ (fromJson json).2.endpoints, e ≠ [] := by
  have hL := fromJson_endpoints json
  have hE := epLoop_take_epElems (epRegion json).length (epRegion json) le_rfl []
    (by simp)
  refine ⟨by simp [fromJson], ?_, ?_, ?_⟩
  · rw [hL, hE]
    simp
  · rw [hL, hE]
    simp only [List.nil_append, List.length_nil, Nat.sub_zero, List.length_take]
    omega
  · intro e he
    rw [hL, hE] at he
    simp only [List.nil_append, List.length_nil, Nat.sub_zero] at he
    exact epElems_ne_nil (epRegion json).length (epRegion json) le_rfl e
      (List.mem_of_mem_take he)

/-- Claim C5, witness: a blob listing seven endpoints decodes to the first
five. -/
theorem c5_endpoints_bound_witness :
    5 < (epElems (epRegion
        "\x7b\"endpoints\":[\"e1\",\"e2\",\"e3\",\"e4\",\"e5\",\"e6\",\"e7\"]\x7d".toList)).length ∧
    ((fromJson "\x7b\"endpoints\":[\"e1\",\"e2\",\"e3\",\"e4\",\"e5\",\"e6\",\"e7\"]\x7d".toList).1 = true ∧
     (fromJson "\x7b\"endpoints\":[\"e1\",\"e2\",\"e3\",\"e4\",\"e5\",\"e6\",\"e7\"]\x7d".toList).2.endpoints
        = (epElems (epRegion
            "\x7b\"endpoints\":[\"e1\",\"e2\",\"e3\",\"e4\",\"e5\",\"e6\",\"e7\"]\x7d".toList)).take 5 ∧
     (fromJson "\x7b\"endpoints\":[\"e1\",\"e2\",\"e3\",\"e4\",\"e5\",\"e6\",\"e7\"]\x7d".toList).2.endpoints.length = 5 ∧
     ∀ e ∈ (fromJson "\x7b\"endpoints\":[\"e1\",\"e2\",\"e3\",\"e4\",\"e5\",\"e6\",\"e7\"]\x7d".toList).2.endpoints,
       e ≠ []) :=
  ⟨by decide,
   c5_endpoints_bound
     "\x7b\"endpoints\":[\"e1\",\"e2\",\"e3\",\"e4\",\"e5\",\"e6\",\"e7\"]\x7d".toList
     (by decide)⟩

/-- Claim C6: `addEndpoint` on a record already holding `MAX_ENDPOINTS`
(five) endpoints returns `false` and the whole record — hence in particular
the endpoint list — unchanged; on a record holding fewer it appends the
given string at the end and returns `true`. -/
theorem c6_addEndpoint (s : DeviceSettings) (url : List Char) :
    (s.endpoints.length = MAX_ENDPOINTS → addEndpoint s url = (s, false)) ∧
    (s.endpoints.length < MAX_ENDPOINTS →
      addEndpoint s url = ({ s with endpoints := s.endpoints ++ [url] }, true)) := by
  constructor
  · intro h
    simp [addEndpoint, h]
  · intro h
    simp only [addEndpoint]
    rw [if_neg (by omega)]

/-- Claim C6, witness: a full record rejects a sixth endpoint; the default
(empty) record accepts one. -/
theorem c6_addEndpoint_witness :
    addEndpoint { setDefaults with
        endpoints := [['a'], ['b'], ['c'], ['d'], ['e']] } ['f']
      = ({ setDefaults with endpoints := [['a'], ['b'], ['c'], ['d'], ['e']] }, false) ∧
    addEndpoint setDefaults ['f']
      = ({ setDefaults with endpoints := [['f']] }, true) :=
  ⟨(c6_addEndpoint { setDefaults with
      endpoints := [['a'], ['b'], ['c'], ['d'], ['e']] } ['f']).1 (by decide),
   (c6_addEndpoint setDefaults ['f']).2 (by decide)⟩

/-- Claim C7: encode is total (a Lean function) and produces, for every
record, the fixed-shape blob: an opening brace, the eight text fields as
`"key":"value",` chunks in declaration order, the `"checkInterval":` digits,
the `"endpoints":[...]` array and the closing `]` and brace — no other
bytes, hence no whitespace and no trailing data.  Every text value passes
through `escapeJson`, which maps each character exactly per the spec's
table (`escMapSpec`), and its output never starts with a quote nor contains
a quote not preceded by a backslash, so no unescaped quote terminates a
string early. -/
theorem c7_encode_shape (r : DeviceSettings) :
    toJson r = ((['\x7b'] ++ chunksOf (ps9 r)) ++
        (patNum "checkInterval".toList ++ (natToChars r.checkInterval ++ [',']))) ++
      ("\"endpoints\":[".toList ++ (epJson r.endpoints ++ ']' :: ['\x7d'])) ∧
    escapeJson [] = [] ∧
    (∀ c : Char, ∀ v : List Char, escapeJson (c :: v) = escMapSpec c ++ escapeJson v) ∧
    (∀ v : List Char, quoteSafe (escapeJson v)) :=
  ⟨toJson_decompMark r, rfl, fun _ _ => rfl,
   fun v => ⟨escapeJson_head v, noLQ_escapeJson v⟩⟩

/-- Claim C8: on a mounted backend that cannot read (load fails at the
byte-store level), provided the first-boot save is not also lost (a file
exists or the backend can write — otherwise C2's abort applies), `begin`
discards the load failure, resets the record to the built-in defaults and
still reports success with the initialized flag set. -/
theorem c8_load_failure_defaults (fs : Backend) (st : StoreState)
    (hm : fs.mountOk = true) (hr : fs.canRead = false)
    (hok : fs.file.isSome ∨ fs.canWrite = true) :
    (begin fs st).2.2 = true ∧
    (begin fs st).2.1.settings = setDefaults ∧
    (begin fs st).2.1.initialized = true := by
  cases hfile : fs.file with
  | some txt => simp [begin, hm, isFirstBoot, hfile, loadSettings, hr]
  | none =>
      have hw : fs.canWrite = true := by
        rcases hok with hs | hw
        · rw [hfile] at hs
          simp at hs
        · exact hw
      simp [begin, hm, isFirstBoot, hfile, saveSettings, hw, loadSettings, hr]

/-- Claim C8, witness: a backend with an existing file that cannot be
opened for reading still opens successfully with the default record. -/
theorem c8_load_failure_defaults_witness :
    (begin ⟨true, false, true, some ['x']⟩ ⟨blankRecord, false⟩).2.2 = true ∧
    (begin ⟨true, false, true, some ['x']⟩ ⟨blankRecord, false⟩).2.1.settings
      = setDefaults ∧
    (begin ⟨true, false, true, some ['x']⟩ ⟨blankRecord, false⟩).2.1.initialized
      = true :=
  c8_load_failure_defaults ⟨true, false, true, some ['x']⟩ ⟨blankRecord, false⟩
    rfl rfl (Or.inl rfl)

/-- Claim C9 (corrected): a second encode/decode pass is not a fixed point
for every record — an endpoint containing `\]` changes again on the second
pass — but it is on every `Good` record: there
`decode(encode(decode(encode(r))))` equals `decode(encode(r))`. -/
theorem c9_idempotent (r : DeviceSettings) (hg : Good r) :
    fromJson (toJson ((fromJson (toJson r)).2)) = fromJson (toJson r) := by
  rw [fromJson_toJson r hg]
  show fromJson (toJson (normalizeRec r)) = (true, normalizeRec r)
  rw [fromJson_toJson (normalizeRec r) (good_normalizeRec r hg), normalizeRec_idem]

set_option maxRecDepth 4000 in
/-- Claim C9, counterexample to the claim as stated: for the record with
the single endpoint `a\]b`, the first pass yields endpoint `a\`, the second
`a\"` — the composition is not idempotent. -/
theorem c9_counterexample :
    fromJson (toJson ((fromJson (toJson { setDefaults with
        endpoints := [['a', '\\', ']', 'b']] })).2))
      ≠ fromJson (toJson { setDefaults with endpoints := [['a', '\\', ']', 'b']] }) := by
  decide

/-- Claim C9, witness: idempotence at a concrete `Good` record. -/
theorem c9_idempotent_witness :
    Good { setDefaults with endpoints := [['q', '#']] } ∧
    fromJson (toJson ((fromJson (toJson { setDefaults with
        endpoints := [['q', '#']] })).2))
      = fromJson (toJson { setDefaults with endpoints := [['q', '#']] }) :=
  ⟨by decide, c9_idempotent { setDefaults with endpoints := [['q', '#']] } (by decide)⟩

/-- Claim C10: when the endpoints marker is found at `i` and the first `]`
after it at relative position `k`, the decoded endpoint list is exactly the
elements scanned from the region cut at that first `]` (bounded by five),
and that region contains no `]` at all — so a `]` inside a quoted element
ends the region there, truncating the element and dropping everything after
it. -/
theorem c10_region_first_rbracket (json : List Char) (i k : Nat)
    (hm : findSub "\"endpoints\":[".toList json = some i)
    (hk : findSub [']'] (json.drop (i + 13)) = some k) :
    (fromJson json).2.endpoints = (epElems ((json.drop (i + 13)).take k)).take 5 ∧
    (']' : Char) ∉ (json.drop (i + 13)).take k := by
  refine ⟨?_, rb_not_in_take _ k hk⟩
  rw [fromJson_endpoints json]
  have hreg : epRegion json = if k > 0 then (json.drop (i + 13)).take k else [] := by
    have hlit : "\"endpoints\":[".toList
        = ['"', 'e', 'n', 'd', 'p', 'o', 'i', 'n', 't', 's', '"', ':', '['] := by decide
    have hm2 : findSub ['"', 'e', 'n', 'd', 'p', 'o', 'i', 'n', 't', 's', '"', ':', '['] json
        = some i := by rw [← hlit]; exact hm
    simp only [epRegion, hlit]
    simp [hm2, hk]
  by_cases hk0 : k > 0
  · rw [hreg, if_pos hk0,
        epLoop_take_epElems ((json.drop (i + 13)).take k).length _ le_rfl [] (by simp)]
    simp
  · have hkz : k = 0 := by omega
    subst hkz
    rw [hreg]
    simp [epLoop_nil, epElems_nil, epElemsF]

/-- Claim C10, witness: in `{"endpoints":["a]b","c"]}` the element `a]b` is
truncated to `a` and the element `c` after the first `]` is dropped. -/
theorem c10_region_first_rbracket_witness :
    findSub "\"endpoints\":[".toList "\x7b\"endpoints\":[\"a]b\",\"c\"]\x7d".toList
      = some 1 ∧
    findSub [']'] ("\x7b\"endpoints\":[\"a]b\",\"c\"]\x7d".toList.drop (1 + 13))
      = some 2 ∧
    ((fromJson "\x7b\"endpoints\":[\"a]b\",\"c\"]\x7d".toList).2.endpoints
        = (epElems (("\x7b\"endpoints\":[\"a]b\",\"c\"]\x7d".toList.drop (1 + 13)).take 2)).take 5 ∧
      (']' : Char) ∉ ("\x7b\"endpoints\":[\"a]b\",\"c\"]\x7d".toList.drop (1 + 13)).take 2) ∧
    (fromJson "\x7b\"endpoints\":[\"a]b\",\"c\"]\x7d".toList).2.endpoints = [['a']] :=
  ⟨by decide, by decide,
   c10_region_first_rbracket "\x7b\"endpoints\":[\"a]b\",\"c\"]\x7d".toList 1 2
     (by decide) (by decide),
   by decide⟩
